import Mathlib

/-!
Shallow embedding of `src/lz4mt.cpp` (lz4mt: parallel LZ4 frame codec).

Modelling conventions:
* Bytes are `Nat` values; the C code's `char`/`uint8_t` truncations are
  rendered as `&&& 0xff`.
* The I/O context `Lz4MtContext` carries the whole input `stream`, a read
  position `pos` (the caller's `read`/`readEof`/`readSeek` callbacks are the
  canonical stream callbacks: `read` yields the next bytes, short only at end
  of stream; `readEof` tests exhaustion; `readSeek` moves `pos`), the bytes
  written so far (`output`; the `write` callback appends and always succeeds),
  and the sticky `result` field.
* The xxHash32 primitive is external to the repository (consumed from
  `xxhash.h`); it is modelled as an abstract parameter
  `xxh : List Nat → Nat`.  The incremental hasher `Xxh32` of the source is
  modelled by its accumulated byte list; `digest` applies `xxh` to it, which
  is the library's contract for incremental hashing.
* The block compressor/decompressor callbacks (`ctx->compress`,
  `ctx->decompress`) are parameters: `comp : List Nat → Option (List Nat)`
  (`none` encodes a non-positive return of `LZ4_compress_limitedOutput`,
  i.e. the incompressible case; `some c` encodes a positive return `c.length`
  with the output bytes `c`), and `decomp : List Nat → List Nat` (the decoded
  bytes; the C callback returns their count and fills the buffer).
* The parallel pipelines are embedded by their serialization in block-index
  order: each worker's write phase runs strictly after its predecessor's
  (enforced in the source by `futures[i-1].wait()`), and the producer/worker
  interleaving of the happy paths is schedule-independent, so the loops are
  written as sequential recursion, with the per-worker results collected in a
  list and folded through `setResult` afterwards exactly as the futures are
  drained in the source.
* `while` loops are written as fuel-based recursion; the fuel passed by the
  entry points (`stream.length + 1`) dominates the iteration count of every
  terminating trace, since every continuing iteration advances `pos`.
-/

def LZ4S_MAGICNUMBER : Nat := 0x184D2204
def LZ4S_MAGICNUMBER_SKIPPABLE_MIN : Nat := 0x184D2A50
def LZ4S_MAGICNUMBER_SKIPPABLE_MAX : Nat := 0x184D2A5F
def LZ4S_CHECKSUM_SEED : Nat := 0
def LZ4S_EOS : Nat := 0

/-- `int getBlocksize(int bdBlockMaximumSize)`: `1 << (8 + (2 * bd))`. -/
def getBlocksize (bdBlockMaximumSize : Nat) : Nat :=
  1 <<< (8 + 2 * bdBlockMaximumSize)

/-- `uint32_t getCheckBits_FromXXH(uint32_t xxh)`: `(xxh >> 8) & 0xff`. -/
def getCheckBits_FromXXH (x : Nat) : Nat := (x >>> 8) &&& 0xff

/-- `bool isSkippableMagicNumber(uint32_t magic)`. -/
def isSkippableMagicNumber (magic : Nat) : Bool :=
  LZ4S_MAGICNUMBER_SKIPPABLE_MIN ≤ magic ∧ magic ≤ LZ4S_MAGICNUMBER_SKIPPABLE_MAX

/-- The FLG bitfield struct of `lz4mt.h` (each field a C bitfield of the
width given in the frame format: 1 bit each, 2 bits for `versionNumber`). -/
structure Lz4MtFlg where
  presetDictionary : Nat
  reserved1 : Nat
  streamChecksum : Nat
  streamSize : Nat
  blockChecksum : Nat
  blockIndependance : Nat
  versionNumber : Nat
  deriving DecidableEq, Repr

/-- The BD bitfield struct of `lz4mt.h` (`reserved3` 4 bits,
`blockMaximumSize` 3 bits, `reserved2` 1 bit). -/
structure Lz4MtBd where
  reserved3 : Nat
  blockMaximumSize : Nat
  reserved2 : Nat
  deriving DecidableEq, Repr

structure Lz4MtStreamDescriptor where
  flg : Lz4MtFlg
  bd : Lz4MtBd
  streamSize : Nat
  dictId : Nat
  deriving DecidableEq, Repr

/-- The C bitfields bound the stored values; a descriptor realizable as the
C struct has every field within its bit width. -/
def descriptorInRange (sd : Lz4MtStreamDescriptor) : Prop :=
  sd.flg.presetDictionary < 2 ∧ sd.flg.reserved1 < 2 ∧
  sd.flg.streamChecksum < 2 ∧ sd.flg.streamSize < 2 ∧
  sd.flg.blockChecksum < 2 ∧ sd.flg.blockIndependance < 2 ∧
  sd.flg.versionNumber < 4 ∧
  sd.bd.reserved3 < 16 ∧ sd.bd.blockMaximumSize < 8 ∧ sd.bd.reserved2 < 2 ∧
  sd.streamSize < 2 ^ 64 ∧ sd.dictId < 2 ^ 32

instance (sd : Lz4MtStreamDescriptor) : Decidable (descriptorInRange sd) := by
  unfold descriptorInRange; infer_instance

/-- `char flgToChar(const Lz4MtFlg&)`. -/
def flgToChar (flg : Lz4MtFlg) : Nat :=
  ((flg.presetDictionary &&& 1) <<< 0)
  ||| ((flg.reserved1 &&& 1) <<< 1)
  ||| ((flg.streamChecksum &&& 1) <<< 2)
  ||| ((flg.streamSize &&& 1) <<< 3)
  ||| ((flg.blockChecksum &&& 1) <<< 4)
  ||| ((flg.blockIndependance &&& 1) <<< 5)
  ||| ((flg.versionNumber &&& 3) <<< 6)

/-- `Lz4MtFlg charToFlg(char c)`. -/
def charToFlg (c : Nat) : Lz4MtFlg where
  presetDictionary := (c >>> 0) &&& 1
  reserved1 := (c >>> 1) &&& 1
  streamChecksum := (c >>> 2) &&& 1
  streamSize := (c >>> 3) &&& 1
  blockChecksum := (c >>> 4) &&& 1
  blockIndependance := (c >>> 5) &&& 1
  versionNumber := (c >>> 6) &&& 3

/-- `char bdToChar(const Lz4MtBd&)`. -/
def bdToChar (bd : Lz4MtBd) : Nat :=
  ((bd.reserved3 &&& 15) <<< 0)
  ||| ((bd.blockMaximumSize &&& 7) <<< 4)
  ||| ((bd.reserved2 &&& 1) <<< 7)

/-- `Lz4MtBd charToBc(char c)`. -/
def charToBc (c : Nat) : Lz4MtBd where
  reserved3 := (c >>> 0) &&& 15
  blockMaximumSize := (c >>> 4) &&& 7
  reserved2 := (c >>> 7) &&& 1

/-- `size_t storeU32(void* p, uint32_t v)`: the four bytes stored
little-endian (the `static_cast<char>` keeps the low 8 bits of each shift). -/
def storeU32 (v : Nat) : List Nat :=
  [v &&& 0xff, (v >>> 8) &&& 0xff, (v >>> 16) &&& 0xff, (v >>> 24) &&& 0xff]

/-- `size_t storeU64(void* p, uint64_t v)`: two little-endian 32-bit halves
(the `static_cast<uint32_t>` keeps the low 32 bits of each shift). -/
def storeU64 (v : Nat) : List Nat :=
  storeU32 (v &&& 0xFFFFFFFF) ++ storeU32 ((v >>> 32) &&& 0xFFFFFFFF)

/-- `uint32_t loadU32(const void* p)`. -/
def loadU32 (l : List Nat) : Nat :=
  (l.getD 0 0) ||| ((l.getD 1 0) <<< 8) ||| ((l.getD 2 0) <<< 16)
  ||| ((l.getD 3 0) <<< 24)

/-- `uint64_t loadU64(const void* p)`. -/
def loadU64 (l : List Nat) : Nat :=
  loadU32 (l.take 4) ||| ((loadU32 (l.drop 4)) <<< 32)

inductive Lz4MtResult where
  | OK
  | ERROR
  | INVALID_MAGIC_NUMBER
  | INVALID_HEADER
  | PRESET_DICTIONARY_IS_NOT_SUPPORTED_YET
  | BLOCK_DEPENDENCE_IS_NOT_SUPPORTED_YET
  | INVALID_VERSION
  | INVALID_HEADER_CHECKSUM
  | INVALID_BLOCK_MAXIMUM_SIZE
  | CANNOT_WRITE_HEADER
  | CANNOT_WRITE_EOS
  | CANNOT_WRITE_STREAM_CHECKSUM
  | CANNOT_READ_BLOCK_SIZE
  | CANNOT_READ_BLOCK_DATA
  | CANNOT_READ_BLOCK_CHECKSUM
  | CANNOT_READ_STREAM_CHECKSUM
  | STREAM_CHECKSUM_MISMATCH
  | BLOCK_CHECKSUM_MISMATCH
  deriving DecidableEq, Repr

/-- The `Lz4MtContext`, specialized to the canonical stream callbacks: the
source bytes, the read position, the sink bytes written so far, and the
sticky result field. -/
structure Lz4MtContext where
  stream : List Nat
  pos : Nat
  output : List Nat
  result : Lz4MtResult
  deriving DecidableEq, Repr

/-- `ctx->read(ctx, d, n)`: yields the next `n` bytes, short only at end of
stream, and advances the position by the count actually read. -/
def ctxRead (ctx : Lz4MtContext) (n : Nat) : List Nat × Lz4MtContext :=
  let d := (ctx.stream.drop ctx.pos).take n
  (d, { ctx with pos := ctx.pos + d.length })

/-- `ctx->readEof(ctx)`: the source is exhausted. -/
def ctxReadEof (ctx : Lz4MtContext) : Bool := ctx.stream.length ≤ ctx.pos

/-- `bool error(const Lz4MtContext* ctx)`. -/
def error (ctx : Lz4MtContext) : Bool := ctx.result ≠ Lz4MtResult.OK

/-- `Lz4MtResult setResult(Lz4MtContext* ctx, Lz4MtResult result)`:
overwrite only from `OK` or `ERROR`, and return the stored value. -/
def setResult (ctx : Lz4MtContext) (result : Lz4MtResult) :
    Lz4MtResult × Lz4MtContext :=
  if ctx.result = Lz4MtResult.OK ∨ ctx.result = Lz4MtResult.ERROR then
    (result, { ctx with result := result })
  else
    (ctx.result, ctx)

/-- `uint32_t readU32(Lz4MtContext* ctx)`. -/
def readU32 (ctx : Lz4MtContext) : Nat × Lz4MtContext :=
  if error ctx then (0, ctx)
  else
    let p := ctxRead ctx 4
    if p.1.length ≠ 4 then (0, { p.2 with result := Lz4MtResult.ERROR })
    else (loadU32 p.1, p.2)

/-- `bool writeU32(Lz4MtContext* ctx, uint32_t v)` (the sink write callback
appends and always writes fully). -/
def writeU32 (ctx : Lz4MtContext) (v : Nat) : Bool × Lz4MtContext :=
  if error ctx then (false, ctx)
  else (true, { ctx with output := ctx.output ++ storeU32 v })

/-- `bool writeBin(Lz4MtContext* ctx, const void* ptr, int size)`. -/
def writeBin (ctx : Lz4MtContext) (l : List Nat) : Bool × Lz4MtContext :=
  if error ctx then (false, ctx)
  else (true, { ctx with output := ctx.output ++ l })

/-- `Lz4MtResult validateStreamDescriptor(const Lz4MtStreamDescriptor*)`. -/
def validateStreamDescriptor (sd : Lz4MtStreamDescriptor) : Lz4MtResult :=
  if sd.flg.versionNumber ≠ 1 then Lz4MtResult.INVALID_VERSION
  else if sd.flg.presetDictionary ≠ 0 then
    Lz4MtResult.PRESET_DICTIONARY_IS_NOT_SUPPORTED_YET
  else if sd.flg.reserved1 ≠ 0 then Lz4MtResult.INVALID_HEADER
  else if sd.flg.blockIndependance = 0 then
    Lz4MtResult.BLOCK_DEPENDENCE_IS_NOT_SUPPORTED_YET
  else if sd.bd.blockMaximumSize < 4 ∨ 7 < sd.bd.blockMaximumSize then
    Lz4MtResult.INVALID_BLOCK_MAXIMUM_SIZE
  else if sd.bd.reserved3 ≠ 0 then Lz4MtResult.INVALID_HEADER
  else if sd.bd.reserved2 ≠ 0 then Lz4MtResult.INVALID_HEADER
  else Lz4MtResult.OK

/-! ## Compression (`lz4mtCompress`, lines 324-448)

The header is assembled in a local buffer `d` and written in one call; the
block loop reads the input in chunks of the block maximum size, and each
worker compresses its chunk and performs its writes strictly after its
predecessor (the `futures[i-1].wait()` order gate), so the pipeline's writes
are its index-ordered serialization. -/

/-- The bytes hashed for the header checksum: FLG, BD, then the optional
`streamSize` and `dictId` fields (`sumBegin .. p` in the source). -/
def headerSumBytes (sd : Lz4MtStreamDescriptor) : List Nat :=
  [flgToChar sd.flg, bdToChar sd.bd]
  ++ (if sd.flg.streamSize ≠ 0 then storeU64 sd.streamSize else [])
  ++ (if sd.flg.presetDictionary ≠ 0 then storeU32 sd.dictId else [])

/-- The header buffer `d` written by `lz4mtCompress`: magic, descriptor
bytes, then the header-checksum byte `getCheckBits_FromXXH (XXH32 sum)`. -/
def headerBytes (xxh : List Nat → Nat) (sd : Lz4MtStreamDescriptor) :
    List Nat :=
  storeU32 LZ4S_MAGICNUMBER ++ headerSumBytes sd
  ++ [getCheckBits_FromXXH (xxh (headerSumBytes sd))]

/-- `cIncompressible = 1 << (nBlockSize * 8 - 1)` with `nBlockSize = 4`. -/
def cIncompressible : Nat := 1 <<< 31

/-- The compress worker body `f(i, src, srcSize)` (lines 372-408), minus the
order gate: compress the chunk, classify it incompressible iff the
compressor returned a non-positive size, then write the size word (high bit
set when incompressible), the payload (original bytes when incompressible,
else the compressor output), and, when block checksums are on, the xxHash32
of the payload. -/
def compressBlockF (comp : List Nat → Option (List Nat))
    (xxh : List Nat → Nat) (blockChecksum : Bool)
    (ctx : Lz4MtContext) (src : List Nat) : Lz4MtContext :=
  if error ctx then ctx
  else
    match comp src with
    | none =>
      let ctx1 := (writeU32 ctx (src.length ||| cIncompressible)).2
      let ctx2 := (writeBin ctx1 src).2
      if blockChecksum then (writeU32 ctx2 (xxh src)).2 else ctx2
    | some c =>
      let ctx1 := (writeU32 ctx c.length).2
      let ctx2 := (writeBin ctx1 c).2
      if blockChecksum then (writeU32 ctx2 (xxh c)).2 else ctx2

/-- The wire bytes of one block record, as emitted by the compress worker. -/
def compressRecord (comp : List Nat → Option (List Nat))
    (xxh : List Nat → Nat) (blockChecksum : Bool) (src : List Nat) :
    List Nat :=
  match comp src with
  | none =>
    storeU32 (src.length ||| cIncompressible) ++ src
    ++ (if blockChecksum then storeU32 (xxh src) else [])
  | some c =>
    storeU32 c.length ++ c
    ++ (if blockChecksum then storeU32 (xxh c) else [])

/-- The producer loop of `lz4mtCompress` (lines 411-430): until `readEof`,
read a chunk of at most `nBlockMax` bytes, fold it into the stream hasher
when `streamChecksum` is on (in input order, before dispatch), and run the
worker (serialized in index order).  `hashed` is the accumulated hasher
input; the fuel dominates the iteration count of every terminating trace. -/
def compressLoop (comp : List Nat → Option (List Nat))
    (xxh : List Nat → Nat) (blockChecksum streamChecksum : Bool)
    (nBlockMax : Nat) :
    Nat → List Nat → Lz4MtContext → List Nat × Lz4MtContext
  | 0, hashed, ctx => (hashed, ctx)
  | fuel + 1, hashed, ctx =>
    if ctxReadEof ctx then (hashed, ctx)
    else
      let p := ctxRead ctx nBlockMax
      let hashed1 := if streamChecksum then hashed ++ p.1 else hashed
      let ctx2 := compressBlockF comp xxh blockChecksum p.2 p.1
      compressLoop comp xxh blockChecksum streamChecksum nBlockMax fuel
        hashed1 ctx2

/-- `Lz4MtResult lz4mtCompress(Lz4MtContext* ctx,
const Lz4MtStreamDescriptor* sd)` (lines 324-448): validate the descriptor,
write the header in one call, run the block pipeline, write the EOS word,
and, when `streamChecksum` is on, the stream digest. -/
def lz4mtCompress (comp : List Nat → Option (List Nat))
    (xxh : List Nat → Nat) (ctx : Lz4MtContext)
    (sd : Lz4MtStreamDescriptor) : Lz4MtResult × Lz4MtContext :=
  let r := validateStreamDescriptor sd
  if r ≠ Lz4MtResult.OK then setResult ctx r
  else
    let ctx := { ctx with output := ctx.output ++ headerBytes xxh sd }
    let nBlockMax := getBlocksize sd.bd.blockMaximumSize
    let blockChecksum := sd.flg.blockChecksum ≠ 0
    let streamChecksum := sd.flg.streamChecksum ≠ 0
    let q := compressLoop comp xxh blockChecksum streamChecksum nBlockMax
      (ctx.stream.length + 1) [] ctx
    let e := writeU32 q.2 LZ4S_EOS
    if ¬ e.1 then (Lz4MtResult.CANNOT_WRITE_EOS, e.2)
    else if streamChecksum then
      let w := writeU32 e.2 (xxh q.1)
      if ¬ w.1 then (Lz4MtResult.CANNOT_WRITE_STREAM_CHECKSUM, w.2)
      else (Lz4MtResult.OK, w.2)
    else (Lz4MtResult.OK, e.2)

/-! ## Decompression (`lz4mtDecompress`, lines 451-663) -/

/-- The decoder's extraction of the payload size (`srcBits & ~incompMask`,
with `incompMask = 1 << 31`, i.e. `blockSize & 0x7FFFFFFF`; line 613). -/
def decodedSrcSize (srcBits : Nat) : Nat := srcBits &&& 0x7FFFFFFF

/-- The decoder's extraction of the incompressible flag
(`0 != (srcBits & incompMask)`; line 612). -/
def decodedIncompressible (srcBits : Nat) : Bool :=
  srcBits &&& (1 <<< 31) ≠ 0

/-- Modelled from the spec: the caller's `readSkippable(ctx, magic, size)`
callback is not part of `src/`; per §6 it consumes `size` bytes from the
source and returns the count, negative on failure (the canonical stream
callback never fails). -/
def readSkippable (ctx : Lz4MtContext) (size : Nat) : Int × Lz4MtContext :=
  let p := ctxRead ctx size
  ((p.1.length : Int), p.2)

/-- The decompress worker body `f(i, src, incompressible, blockChecksum)`
(lines 552-597), minus the order gate: on a sticky error or the quit flag,
return `OK` without side effects; verify the block checksum when enabled
(mismatch sets quit and returns `BLOCK_CHECKSUM_MISMATCH`); then write the
block's uncompressed bytes (the source bytes when incompressible, else the
decompressor output) and fold them into the stream hasher (`hashed`) when
the stream checksum is on.  Returns
(worker result, context, quit flag, hasher input). -/
def decompWorkerF (decomp : List Nat → List Nat) (xxh : List Nat → Nat)
    (blockChecksum streamChecksum : Bool) (ctx : Lz4MtContext) (quit : Bool)
    (hashed : List Nat) (src : List Nat) (incompressible : Bool)
    (blockCheckSumVal : Nat) :
    Lz4MtResult × Lz4MtContext × Bool × List Nat :=
  if error ctx ∨ quit then (Lz4MtResult.OK, ctx, quit, hashed)
  else if blockChecksum ∧ xxh src ≠ blockCheckSumVal then
    (Lz4MtResult.BLOCK_CHECKSUM_MISMATCH, ctx, true, hashed)
  else if incompressible then
    let ctx1 := (writeBin ctx src).2
    (Lz4MtResult.OK, ctx1,
     quit, if streamChecksum then hashed ++ src else hashed)
  else
    let dec := decomp src
    let ctx1 := (writeBin ctx dec).2
    (Lz4MtResult.OK, ctx1,
     quit, if streamChecksum then hashed ++ dec else hashed)

/-- The block loop of `lz4mtDecompress` (lines 599-640), with the workers
serialized in index order: read the size word (failure sets quit and
`CANNOT_READ_BLOCK_SIZE`), stop at the EOS word, read the payload
(`decodedSrcSize` bytes; shortfall sets quit and `CANNOT_READ_BLOCK_DATA`),
read the block-checksum trailer when enabled (failure sets quit and
`CANNOT_READ_BLOCK_CHECKSUM`), and run the worker, collecting its returned
result in `results` as the futures vector does.  Returns
(context, quit flag, hasher input, collected worker results). -/
def decompBlockLoop (decomp : List Nat → List Nat) (xxh : List Nat → Nat)
    (blockChecksum streamChecksum : Bool) :
    Nat → Lz4MtContext → Bool → List Nat → List Lz4MtResult →
    Lz4MtContext × Bool × List Nat × List Lz4MtResult
  | 0, ctx, quit, hashed, results => (ctx, quit, hashed, results)
  | fuel + 1, ctx, quit, hashed, results =>
    if quit ∨ ctxReadEof ctx then (ctx, quit, hashed, results)
    else
      let p := readU32 ctx
      if error p.2 then
        ((setResult p.2 Lz4MtResult.CANNOT_READ_BLOCK_SIZE).2, true, hashed,
         results)
      else if p.1 = LZ4S_EOS then (p.2, quit, hashed, results)
      else
        let incompressible := decodedIncompressible p.1
        let srcSize := decodedSrcSize p.1
        let q := ctxRead p.2 srcSize
        if q.1.length ≠ srcSize ∨ error q.2 then
          ((setResult q.2 Lz4MtResult.CANNOT_READ_BLOCK_DATA).2, true,
           hashed, results)
        else
          let b := if blockChecksum then readU32 q.2 else (0, q.2)
          if error b.2 then
            ((setResult b.2 Lz4MtResult.CANNOT_READ_BLOCK_CHECKSUM).2, true,
             hashed, results)
          else
            let w := decompWorkerF decomp xxh blockChecksum streamChecksum
              b.2 quit hashed q.1 incompressible b.1
            decompBlockLoop decomp xxh blockChecksum streamChecksum fuel
              w.2.1 w.2.2.1 w.2.2.2 (results ++ [w.1])

/-- Draining the futures (lines 642-647): each non-`OK` worker result is
applied through `setResult`. -/
def foldResults (ctx : Lz4MtContext) : List Lz4MtResult → Lz4MtContext
  | [] => ctx
  | r :: rs =>
    foldResults (if r ≠ Lz4MtResult.OK then (setResult ctx r).2 else ctx) rs

/-- The stream-checksum epilogue (lines 649-659): if no error and the stream
checksum is enabled, read the LE u32 trailer (failure ⇒
`CANNOT_READ_STREAM_CHECKSUM`) and compare it with the digest of the hasher
input (mismatch ⇒ `STREAM_CHECKSUM_MISMATCH`). -/
def checkStreamChecksum (xxh : List Nat → Nat) (ctx : Lz4MtContext)
    (streamChecksum : Bool) (hashed : List Nat) : Lz4MtContext :=
  if ¬ error ctx ∧ streamChecksum then
    let p := readU32 ctx
    if error p.2 then
      (setResult p.2 Lz4MtResult.CANNOT_READ_STREAM_CHECKSUM).2
    else if xxh hashed ≠ p.1 then
      (setResult p.2 Lz4MtResult.STREAM_CHECKSUM_MISMATCH).2
    else p.2
  else ctx

/-- One iteration of the outer loop of `lz4mtDecompress` (lines 461-660):
read the magic (failure ⇒ `OK` on clean EOF, else `INVALID_HEADER`; both
break), consume a skippable frame through the caller's handler, rewind and
report `INVALID_MAGIC_NUMBER` on a foreign magic, then parse FLG/BD, the
optional fields and the header-checksum byte, and run the block pipeline,
drain the futures, and verify the stream checksum.  Returns
(context, parsed descriptor, break flag, quit flag). -/
def decompressFrame (decomp : List Nat → List Nat) (xxh : List Nat → Nat)
    (fuel : Nat) (ctx : Lz4MtContext) (sd : Lz4MtStreamDescriptor)
    (quit : Bool) :
    Lz4MtContext × Lz4MtStreamDescriptor × Bool × Bool :=
  let m := readU32 ctx
  if error m.2 then
    if ctxReadEof m.2 then ((setResult m.2 Lz4MtResult.OK).2, sd, true, quit)
    else ((setResult m.2 Lz4MtResult.INVALID_HEADER).2, sd, true, quit)
  else if isSkippableMagicNumber m.1 then
    let s := readU32 m.2
    if error s.2 then
      ((setResult s.2 Lz4MtResult.INVALID_HEADER).2, sd, true, quit)
    else
      let k := readSkippable s.2 s.1
      if k.1 < 0 ∨ error k.2 then
        ((setResult k.2 Lz4MtResult.INVALID_HEADER).2, sd, true, quit)
      else (k.2, sd, false, quit)
  else if m.1 ≠ LZ4S_MAGICNUMBER then
    let ctx2 := { m.2 with pos := m.2.pos - 4 }
    ((setResult ctx2 Lz4MtResult.INVALID_MAGIC_NUMBER).2, sd, true, quit)
  else
    let h := ctxRead m.2 2
    if h.1.length ≠ 2 then
      ((setResult h.2 Lz4MtResult.INVALID_HEADER).2, sd, true, quit)
    else
      let sd1 := { sd with flg := charToFlg (h.1.getD 0 0),
                           bd := charToBc (h.1.getD 1 0) }
      let r := validateStreamDescriptor sd1
      if r ≠ Lz4MtResult.OK then ((setResult h.2 r).2, sd1, true, quit)
      else
        let nExInfo := (if sd1.flg.streamSize ≠ 0 then 8 else 0)
          + (if sd1.flg.presetDictionary ≠ 0 then 4 else 0) + 1
        let x := ctxRead h.2 nExInfo
        if x.1.length ≠ nExInfo then
          ((setResult x.2 Lz4MtResult.INVALID_HEADER).2, sd1, true, quit)
        else
          let sd2 := if sd1.flg.streamSize ≠ 0 then
            { sd1 with streamSize := loadU64 x.1 } else sd1
          let sd3 := if sd1.flg.presetDictionary ≠ 0 then
            { sd2 with dictId :=
                loadU32 ((if sd1.flg.streamSize ≠ 0 then x.1.drop 8 else x.1)) }
            else sd2
          let sumBytes := h.1 ++ x.1.take (nExInfo - 1)
          let calHash := getCheckBits_FromXXH (xxh sumBytes)
          let srcHash := x.1.getD (nExInfo - 1) 0
          if srcHash ≠ calHash then
            ((setResult x.2 Lz4MtResult.INVALID_HEADER_CHECKSUM).2, sd3,
             true, quit)
          else
            let blockChecksum := sd3.flg.blockChecksum ≠ 0
            let streamChecksum := sd3.flg.streamChecksum ≠ 0
            let res := decompBlockLoop decomp xxh blockChecksum
              streamChecksum fuel x.2 quit [] []
            let ctx4 := foldResults res.1 res.2.2.2
            let ctx5 := checkStreamChecksum xxh ctx4 streamChecksum res.2.2.1
            (ctx5, sd3, false, res.2.1)

/-- The outer frame loop `while(!quit && !error(ctx) && !ctx->readEof(ctx))`
of `lz4mtDecompress`. -/
def decompressOuter (decomp : List Nat → List Nat) (xxh : List Nat → Nat) :
    Nat → Lz4MtContext → Lz4MtStreamDescriptor → Bool →
    Lz4MtContext × Lz4MtStreamDescriptor
  | 0, ctx, sd, _ => (ctx, sd)
  | fuel + 1, ctx, sd, quit =>
    if quit ∨ error ctx ∨ ctxReadEof ctx then (ctx, sd)
    else
      let f := decompressFrame decomp xxh (ctx.stream.length + 1) ctx sd quit
      if f.2.2.1 then (f.1, f.2.1)
      else decompressOuter decomp xxh fuel f.1 f.2.1 f.2.2.2

/-- `Lz4MtResult lz4mtDecompress(Lz4MtContext* ctx,
Lz4MtStreamDescriptor* sd)` (lines 451-663): reset the result to `OK`
through `setResult`, run the frame loop, and return the stored result. -/
def lz4mtDecompress (decomp : List Nat → List Nat) (xxh : List Nat → Nat)
    (ctx : Lz4MtContext) (sd : Lz4MtStreamDescriptor) :
    Lz4MtResult × Lz4MtContext × Lz4MtStreamDescriptor :=
  let ctx0 := (setResult ctx Lz4MtResult.OK).2
  let p := decompressOuter decomp xxh (ctx0.stream.length + 1) ctx0 sd false
  (p.1.result, p.1, p.2)

/-- The producer's chunking of the input: `readChunksF n fuel l` splits `l`
into successive chunks of at most `n` bytes, as the compress producer's
reads do (each loop iteration reads up to `nBlockMaximumSize` bytes until
`readEof`); the fuel dominates the chunk count whenever `0 < n`. -/
def readChunksF (n : Nat) : Nat → List Nat → List (List Nat)
  | 0, _ => []
  | _ + 1, [] => []
  | fuel + 1, x :: xs => (x :: xs).take n :: readChunksF n fuel ((x :: xs).drop n)

/-- The chunks the compress producer reads from `l` with block maximum
size `n`. -/
def readChunks (n : Nat) (l : List Nat) : List (List Nat) :=
  readChunksF n l.length l

/-! ## Bit-level bridging lemmas -/

theorem and_0xff (x : Nat) : x &&& 0xff = x % 256 := by
  have h := Nat.and_pow_two_sub_one_eq_mod x 8
  norm_num at h
  exact h

theorem and_0x7FFFFFFF (x : Nat) : x &&& 0x7FFFFFFF = x % 2 ^ 31 := by
  have h := Nat.and_pow_two_sub_one_eq_mod x 31
  norm_num at h ⊢
  exact h

theorem lor_shiftLeft_eq_add {x : Nat} (y k : Nat) (h : x < 2 ^ k) :
    x ||| (y <<< k) = x + y * 2 ^ k := by
  rw [Nat.shiftLeft_eq, Nat.lor_comm, Nat.mul_comm y (2 ^ k),
    ← Nat.mul_add_lt_is_or h y]
  omega

theorem and_top_bit_of_lt {x : Nat} (h : x < 2 ^ 31) :
    x &&& 2147483648 = 0 := by
  have e : (2147483648 : Nat) = 2 ^ 31 := by norm_num
  rw [e, Nat.and_two_pow, Nat.testBit_lt_two_pow h]
  rfl

theorem and_top_bit_add {s : Nat} (h : s < 2 ^ 31) :
    (s + 2147483648) &&& 2147483648 = 2147483648 := by
  have e : (2147483648 : Nat) = 2 ^ 31 := by norm_num
  rw [e, Nat.and_two_pow]
  have ht : (s + 2 ^ 31).testBit 31 = true := by
    rw [Nat.testBit_to_div_mod]
    have hd : (s + 2 ^ 31) / 2 ^ 31 = 1 := by omega
    rw [hd]
    rfl
  rw [ht]
  norm_num

theorem lor_cIncompressible {s : Nat} (h : s < 2 ^ 31) :
    s ||| cIncompressible = s + 2 ^ 31 := by
  unfold cIncompressible
  rw [lor_shiftLeft_eq_add 1 31 h]
  omega

theorem storeU32_length (v : Nat) : (storeU32 v).length = 4 := rfl

theorem loadU32_storeU32 {v : Nat} (h : v < 2 ^ 32) :
    loadU32 (storeU32 v) = v := by
  unfold loadU32 storeU32
  simp only [List.getD_cons_zero, List.getD_cons_succ, and_0xff,
    Nat.shiftRight_eq_div_pow]
  rw [lor_shiftLeft_eq_add _ 8 (by omega)]
  rw [lor_shiftLeft_eq_add _ 16 (by omega)]
  rw [lor_shiftLeft_eq_add _ 24 (by omega)]
  omega

theorem decodedSrcSize_of_lt {w : Nat} (h : w < 2 ^ 31) :
    decodedSrcSize w = w := by
  rw [decodedSrcSize, and_0x7FFFFFFF, Nat.mod_eq_of_lt h]

theorem decodedIncompressible_of_lt {w : Nat} (h : w < 2 ^ 31) :
    decodedIncompressible w = false := by
  simp [decodedIncompressible, and_top_bit_of_lt h]

theorem decodedSrcSize_add_top {s : Nat} (h : s < 2 ^ 31) :
    decodedSrcSize (s + 2 ^ 31) = s := by
  rw [decodedSrcSize, and_0x7FFFFFFF]
  omega

theorem decodedIncompressible_add_top {s : Nat} (h : s < 2 ^ 31) :
    decodedIncompressible (s + 2 ^ 31) = true := by
  simp [decodedIncompressible, and_top_bit_add h]

theorem charToFlg_flgToChar (p r1 sc ss bc bi : Fin 2) (vn : Fin 4) :
    charToFlg (flgToChar ⟨p, r1, sc, ss, bc, bi, vn⟩)
      = ⟨p, r1, sc, ss, bc, bi, vn⟩ := by
  revert p r1 sc ss bc bi vn; decide

theorem charToBc_bdToChar (r3 : Fin 16) (bms : Fin 8) (r2 : Fin 2) :
    charToBc (bdToChar ⟨r3, bms, r2⟩) = ⟨r3, bms, r2⟩ := by
  revert r3 bms r2; decide

theorem getBlocksize_pos (b : Nat) : 0 < getBlocksize b := by
  rw [getBlocksize, Nat.one_shiftLeft]
  exact Nat.pos_pow_of_pos _ (by omega)

theorem getBlocksize_lt {b : Nat} (h : b < 8) : getBlocksize b < 2 ^ 31 := by
  interval_cases b <;> decide

theorem getCheckBits_lt (x : Nat) : getCheckBits_FromXXH x < 256 := by
  rw [getCheckBits_FromXXH, and_0xff]
  omega

/-! ## Small unfolding lemmas for the I/O helpers -/

theorem error_eq_false {ctx : Lz4MtContext} (h : ctx.result = Lz4MtResult.OK) :
    error ctx = false := by simp [error, h]

theorem writeU32_ok {ctx : Lz4MtContext} {v : Nat}
    (h : ctx.result = Lz4MtResult.OK) :
    writeU32 ctx v = (true, { ctx with output := ctx.output ++ storeU32 v }) := by
  simp [writeU32, error, h]

theorem writeBin_ok {ctx : Lz4MtContext} {l : List Nat}
    (h : ctx.result = Lz4MtResult.OK) :
    writeBin ctx l = (true, { ctx with output := ctx.output ++ l }) := by
  simp [writeBin, error, h]

theorem setResult_ok {ctx : Lz4MtContext} {r : Lz4MtResult}
    (h : ctx.result = Lz4MtResult.OK) :
    setResult ctx r = (r, { ctx with result := r }) := by
  simp [setResult, h]

theorem setResult_error {ctx : Lz4MtContext} {r : Lz4MtResult}
    (h : ctx.result = Lz4MtResult.ERROR) :
    setResult ctx r = (r, { ctx with result := r }) := by
  simp [setResult, h]

/-! ## Claim C3 -/

/-- Claim C3, as stated, is false: `validateStreamDescriptor` checks the
version number before `reserved1`, so a descriptor with `reserved1 = 1` but
`versionNumber = 0` yields `INVALID_VERSION`, not `INVALID_HEADER`. -/
theorem validateStreamDescriptor_reserved_counterexample :
    (⟨⟨0, 1, 0, 0, 0, 1, 0⟩, ⟨0, 4, 0⟩, 0, 0⟩ :
      Lz4MtStreamDescriptor).flg.reserved1 ≠ 0 ∧
    validateStreamDescriptor ⟨⟨0, 1, 0, 0, 0, 1, 0⟩, ⟨0, 4, 0⟩, 0, 0⟩
      = Lz4MtResult.INVALID_VERSION ∧
    validateStreamDescriptor ⟨⟨0, 1, 0, 0, 0, 1, 0⟩, ⟨0, 4, 0⟩, 0, 0⟩
      ≠ Lz4MtResult.INVALID_HEADER := by decide

/-- Claim C3 (amended): a descriptor that reaches the reserved-bit checks
with `reserved1`, `reserved2` or `reserved3` nonzero is rejected with
`INVALID_HEADER`: `reserved1 ≠ 0` is decisive once the version and
preset-dictionary checks pass, and `reserved2 ≠ 0` or `reserved3 ≠ 0` is
decisive once additionally the block-independence and block-maximum-size
checks pass. -/
theorem validateStreamDescriptor_reserved (sd : Lz4MtStreamDescriptor)
    (h1 : sd.flg.versionNumber = 1) (h2 : sd.flg.presetDictionary = 0)
    (h : sd.flg.reserved1 ≠ 0 ∨
      (sd.flg.blockIndependance ≠ 0 ∧ 4 ≤ sd.bd.blockMaximumSize ∧
       sd.bd.blockMaximumSize ≤ 7 ∧
       (sd.bd.reserved2 ≠ 0 ∨ sd.bd.reserved3 ≠ 0))) :
    validateStreamDescriptor sd = Lz4MtResult.INVALID_HEADER := by
  unfold validateStreamDescriptor
  split_ifs <;> first | rfl | (exfalso; omega)

/-- Witness for `validateStreamDescriptor_reserved`. -/
theorem validateStreamDescriptor_reserved_witness :
    validateStreamDescriptor ⟨⟨0, 0, 0, 0, 0, 1, 1⟩, ⟨3, 4, 0⟩, 0, 0⟩
      = Lz4MtResult.INVALID_HEADER :=
  validateStreamDescriptor_reserved ⟨⟨0, 0, 0, 0, 0, 1, 1⟩, ⟨3, 4, 0⟩, 0, 0⟩
    (by decide) (by decide) (by decide)

/-! ## Claim C5 -/

/-- Claim C5: in the compress worker, the high (incompressible) bit in the
written size word is set iff the compress callback returned a non-positive
size (`comp src = none`), and exactly in that case the payload written after
the size word is the original uncompressed source bytes, otherwise the
compressor's output (`(comp src).getD src` covers both). -/
theorem compressBlockF_incompressible_iff
    (comp : List Nat → Option (List Nat)) (xxh : List Nat → Nat) (bc : Bool)
    (ctx : Lz4MtContext) (src : List Nat)
    (hres : ctx.result = Lz4MtResult.OK) (hlen : src.length < 2 ^ 31)
    (hbound : ∀ c, comp src = some c → c.length ≤ src.length) :
    ∃ w, compressBlockF comp xxh bc ctx src
        = { ctx with output := ctx.output ++ (storeU32 w
            ++ ((comp src).getD src
                ++ (if bc then storeU32 (xxh ((comp src).getD src))
                    else []))) }
      ∧ (decodedIncompressible w = true ↔ comp src = none) := by
  cases hc : comp src with
  | none =>
    refine ⟨src.length ||| cIncompressible, ?_, ?_⟩
    · cases bc <;>
        simp [compressBlockF, hc, writeU32, writeBin, error, hres,
          List.append_assoc]
    · rw [lor_cIncompressible hlen, decodedIncompressible_add_top hlen]
      simp
  | some c =>
    have hcl : c.length < 2 ^ 31 := lt_of_le_of_lt (hbound c hc) hlen
    refine ⟨c.length, ?_, ?_⟩
    · cases bc <;>
        simp [compressBlockF, hc, writeU32, writeBin, error, hres,
          List.append_assoc]
    · rw [decodedIncompressible_of_lt hcl]
      simp [hc]

/-- Witness for `compressBlockF_incompressible_iff`. -/
theorem compressBlockF_incompressible_iff_witness :
    ∃ w, compressBlockF (fun _ => none) (fun _ => 0) true
        ⟨[], 0, [7], Lz4MtResult.OK⟩ [1, 2]
        = { stream := [], pos := 0,
            output := [7] ++ (storeU32 w ++ ([1, 2] ++ storeU32 0)),
            result := Lz4MtResult.OK }
      ∧ (decodedIncompressible w = true ↔ (none : Option (List Nat)) = none) := by
  have h := compressBlockF_incompressible_iff (fun _ => none) (fun _ => 0)
    true ⟨[], 0, [7], Lz4MtResult.OK⟩ [1, 2] (by rfl) (by decide)
    (by intro c hc; cases hc)
  simpa using h

/-! ## Claim C6 -/

/-- Claim C6: for every block record emitted by the compress worker, the
decoder's `decodedSrcSize` (the size word with bit 31 masked off,
`blockSize &&& 0x7FFFFFFF`) recovers exactly the payload length — the size
word counts neither the 4-byte block-checksum trailer nor the high-bit
flag — and `decodedIncompressible` (bit 31) recovers the incompressible
flag, which equals `blockSize >>> 31` for a 32-bit size word. -/
theorem blockRecord_size_encoding
    (comp : List Nat → Option (List Nat)) (xxh : List Nat → Nat) (bc : Bool)
    (src : List Nat) (hlen : src.length < 2 ^ 31)
    (hbound : ∀ c, comp src = some c → c.length ≤ src.length) :
    ∃ w, compressRecord comp xxh bc src
        = storeU32 w ++ ((comp src).getD src)
          ++ (if bc then storeU32 (xxh ((comp src).getD src)) else [])
      ∧ decodedSrcSize w = ((comp src).getD src).length
      ∧ decodedIncompressible w = decide (comp src = none)
      ∧ (decodedIncompressible w = true ↔ w >>> 31 = 1)
      ∧ w < 2 ^ 32 := by
  cases hc : comp src with
  | none =>
    refine ⟨src.length ||| cIncompressible, ?_, ?_, ?_, ?_, ?_⟩
    · rw [compressRecord, hc]
      simp [List.append_assoc]
    · rw [lor_cIncompressible hlen, decodedSrcSize_add_top hlen]
      simp [hc]
    · rw [lor_cIncompressible hlen, decodedIncompressible_add_top hlen]
      simp [hc]
    · rw [lor_cIncompressible hlen, decodedIncompressible_add_top hlen,
        Nat.shiftRight_eq_div_pow]
      constructor
      · intro; omega
      · intro; rfl
    · rw [lor_cIncompressible hlen]
      omega
  | some c =>
    have hcl : c.length < 2 ^ 31 := lt_of_le_of_lt (hbound c hc) hlen
    refine ⟨c.length, ?_, ?_, ?_, ?_, ?_⟩
    · rw [compressRecord, hc]
      simp [List.append_assoc]
    · rw [decodedSrcSize_of_lt hcl]
      simp [hc]
    · rw [decodedIncompressible_of_lt hcl]
      simp [hc]
    · rw [decodedIncompressible_of_lt hcl, Nat.shiftRight_eq_div_pow]
      constructor
      · intro h; cases h
      · intro h; exfalso; omega
    · omega

/-- Witness for `blockRecord_size_encoding`. -/
theorem blockRecord_size_encoding_witness :
    ∃ w, compressRecord (fun _ => some [9]) (fun _ => 3) false [1, 2]
        = storeU32 w ++ [9] ++ []
      ∧ decodedSrcSize w = 1
      ∧ decodedIncompressible w = false
      ∧ (decodedIncompressible w = true ↔ w >>> 31 = 1)
      ∧ w < 2 ^ 32 := by
  have h := blockRecord_size_encoding (fun _ => some [9]) (fun _ => 3) false
    [1, 2] (by decide) (by intro c hc; cases hc; decide)
  simpa using h

/-! ## Claim C9 -/

/-- Claim C9: the result field is sticky-first-error — `setResult` changes
the stored result only when it is currently `OK` or `ERROR`, so a stored
specific error code survives every later call — and a decompress worker
that observes a non-`OK` result or the quit flag at entry performs no
writes and returns `OK`, so draining its future cannot overwrite the
stored code. -/
theorem setResult_sticky_and_worker_inert :
    (∀ (ctx : Lz4MtContext) (r : Lz4MtResult),
      ctx.result ≠ Lz4MtResult.OK → ctx.result ≠ Lz4MtResult.ERROR →
      setResult ctx r = (ctx.result, ctx)) ∧
    (∀ (decomp : List Nat → List Nat) (xxh : List Nat → Nat)
      (bc sc : Bool) (ctx : Lz4MtContext) (quit : Bool)
      (hashed src : List Nat) (inc : Bool) (bcv : Nat),
      ctx.result ≠ Lz4MtResult.OK ∨ quit = true →
      decompWorkerF decomp xxh bc sc ctx quit hashed src inc bcv
        = (Lz4MtResult.OK, ctx, quit, hashed)) := by
  constructor
  · intro ctx r h1 h2
    simp [setResult, h1, h2]
  · intro decomp xxh bc sc ctx quit hashed src inc bcv h
    rw [decompWorkerF]
    have : (error ctx ∨ quit = true) := by
      cases h with
      | inl h => exact Or.inl (by simp [error, h])
      | inr h => exact Or.inr h
    simp only [error] at this ⊢
    rcases this with h' | h' <;> simp [h']

/-- Witness for `setResult_sticky_and_worker_inert`. -/
theorem setResult_sticky_and_worker_inert_witness :
    setResult ⟨[], 0, [], Lz4MtResult.INVALID_HEADER⟩
        Lz4MtResult.STREAM_CHECKSUM_MISMATCH
      = (Lz4MtResult.INVALID_HEADER, ⟨[], 0, [], Lz4MtResult.INVALID_HEADER⟩) ∧
    decompWorkerF (fun _ => []) (fun _ => 0) false false
        ⟨[], 0, [], Lz4MtResult.INVALID_HEADER⟩ false [] [3] true 0
      = (Lz4MtResult.OK, ⟨[], 0, [], Lz4MtResult.INVALID_HEADER⟩, false, []) :=
  ⟨setResult_sticky_and_worker_inert.1 _ _ (by decide) (by decide),
   setResult_sticky_and_worker_inert.2 _ _ _ _ _ _ _ _ _ _
     (Or.inl (by decide))⟩

/-! ## Claim C10 -/

/-- Claim C10: once the context's result field is not `OK`, the I/O helpers
are inert — `readU32` returns 0, `writeU32` and `writeBin` return `false`,
and none of the three touches the context (no read or write callback is
invoked, so no byte reaches the sink after the first recorded error). -/
theorem io_helpers_inert_on_error (ctx : Lz4MtContext) (v : Nat)
    (l : List Nat) (h : ctx.result ≠ Lz4MtResult.OK) :
    readU32 ctx = (0, ctx) ∧ writeU32 ctx v = (false, ctx) ∧
    writeBin ctx l = (false, ctx) := by
  refine ⟨?_, ?_, ?_⟩ <;> simp [readU32, writeU32, writeBin, error, h]

/-- Witness for `io_helpers_inert_on_error`. -/
theorem io_helpers_inert_on_error_witness :
    readU32 ⟨[1, 2, 3, 4], 0, [], Lz4MtResult.ERROR⟩
      = (0, ⟨[1, 2, 3, 4], 0, [], Lz4MtResult.ERROR⟩) ∧
    writeU32 ⟨[1, 2, 3, 4], 0, [], Lz4MtResult.ERROR⟩ 5
      = (false, ⟨[1, 2, 3, 4], 0, [], Lz4MtResult.ERROR⟩) ∧
    writeBin ⟨[1, 2, 3, 4], 0, [], Lz4MtResult.ERROR⟩ [9]
      = (false, ⟨[1, 2, 3, 4], 0, [], Lz4MtResult.ERROR⟩) :=
  io_helpers_inert_on_error _ 5 [9] (by decide)

/-! ## Chunking lemmas -/

theorem take_length_le_eq {α : Type _} {l : List α} {n : Nat}
    (h : l.length ≤ n) : l.take n = l :=
  List.take_of_length_le h

theorem drop_take_length {α : Type _} (l : List α) (n : Nat) :
    l.drop ((l.take n).length) = l.drop n := by
  rw [List.length_take]
  rcases Nat.le_total n l.length with h | h
  · rw [Nat.min_eq_left h]
  · rw [Nat.min_eq_right h, List.drop_length,
      List.drop_eq_nil_of_le h]

theorem take_append_drop_take {α : Type _} (l : List α) (n : Nat) :
    l.take n ++ l.drop ((l.take n).length) = l := by
  rw [drop_take_length]
  exact List.take_append_drop n l

theorem readChunksF_congr {n : Nat} (hn : 0 < n) :
    ∀ (f1 f2 : Nat) (l : List Nat), l.length ≤ f1 → l.length ≤ f2 →
    readChunksF n f1 l = readChunksF n f2 l := by
  intro f1
  induction f1 with
  | zero =>
    intro f2 l h1 h2
    have : l = [] := List.eq_nil_of_length_eq_zero (Nat.le_zero.mp h1)
    subst this
    cases f2 <;> rfl
  | succ f ih =>
    intro f2 l h1 h2
    cases l with
    | nil => cases f2 <;> rfl
    | cons x xs =>
      cases f2 with
      | zero => simp at h2
      | succ g =>
        simp only [readChunksF]
        congr 1
        apply ih
        · simp at h1 ⊢
          omega
        · simp at h2 ⊢
          omega

theorem readChunksF_flatten {n : Nat} (hn : 0 < n) :
    ∀ (fuel : Nat) (l : List Nat), l.length ≤ fuel →
    (readChunksF n fuel l).flatten = l := by
  intro fuel
  induction fuel with
  | zero =>
    intro l h
    have : l = [] := List.eq_nil_of_length_eq_zero (Nat.le_zero.mp h)
    subst this
    rfl
  | succ f ih =>
    intro l h
    cases l with
    | nil => rfl
    | cons x xs =>
      simp only [readChunksF, List.flatten_cons]
      rw [ih _ (by simp at h ⊢; omega)]
      exact List.take_append_drop n (x :: xs)

theorem readChunksF_mem {n : Nat} (hn : 0 < n) :
    ∀ (fuel : Nat) (l : List Nat), l.length ≤ fuel →
    ∀ ch ∈ readChunksF n fuel l, ch ≠ [] ∧ ch.length ≤ n := by
  intro fuel
  induction fuel with
  | zero =>
    intro l h
    have : l = [] := List.eq_nil_of_length_eq_zero (Nat.le_zero.mp h)
    subst this
    intro ch hch
    cases hch
  | succ f ih =>
    intro l h ch hch
    cases l with
    | nil => cases hch
    | cons x xs =>
      simp only [readChunksF, List.mem_cons] at hch
      rcases hch with rfl | hch
      · constructor
        · cases n with
          | zero => omega
          | succ m => simp
        · rw [List.length_take]
          exact Nat.min_le_left _ _
      · exact ih _ (by simp at h ⊢; omega) ch hch

theorem readChunksF_count {n : Nat} (hn : 0 < n) :
    ∀ (fuel : Nat) (l : List Nat), l.length ≤ fuel →
    (readChunksF n fuel l).length ≤ l.length := by
  intro fuel
  induction fuel with
  | zero =>
    intro l h
    have : l = [] := List.eq_nil_of_length_eq_zero (Nat.le_zero.mp h)
    subst this
    simp [readChunksF]
  | succ f ih =>
    intro l h
    cases l with
    | nil => simp [readChunksF]
    | cons x xs =>
      simp only [readChunksF, List.length_cons]
      have := ih ((x :: xs).drop n) (by simp at h ⊢; omega)
      simp at this ⊢
      omega

theorem readChunks_cons {n : Nat} (hn : 0 < n) {l : List Nat} (hl : l ≠ []) :
    readChunks n l = l.take n :: readChunks n (l.drop n) := by
  cases l with
  | nil => exact absurd rfl hl
  | cons x xs =>
    show readChunksF n (xs.length + 1) (x :: xs) = _
    simp only [readChunksF]
    congr 1
    apply readChunksF_congr hn
    · simp; omega
    · rfl

/-! ## Closed form of the compress pipeline -/

theorem compressBlockF_ok {comp : List Nat → Option (List Nat)}
    {xxh : List Nat → Nat} {bc : Bool} {ctx : Lz4MtContext} {src : List Nat}
    (h : ctx.result = Lz4MtResult.OK) :
    compressBlockF comp xxh bc ctx src
      = { ctx with output := ctx.output ++ compressRecord comp xxh bc src } := by
  cases hc : comp src <;> cases bc <;>
    simp [compressBlockF, compressRecord, hc, writeU32, writeBin, error, h,
      List.append_assoc]

theorem compressLoop_eq (comp : List Nat → Option (List Nat))
    (xxh : List Nat → Nat) (bc sc : Bool) {n : Nat} (hn : 0 < n) :
    ∀ (fuel : Nat) (ctx : Lz4MtContext) (hashed : List Nat),
    ctx.result = Lz4MtResult.OK → ctx.pos ≤ ctx.stream.length →
    ctx.stream.length - ctx.pos ≤ fuel →
    compressLoop comp xxh bc sc n fuel hashed ctx =
      ((if sc then hashed ++ ctx.stream.drop ctx.pos else hashed),
       { ctx with pos := ctx.stream.length,
                  output := ctx.output
                    ++ ((readChunks n (ctx.stream.drop ctx.pos)).map
                        (compressRecord comp xxh bc)).flatten }) := by
  intro fuel
  induction fuel with
  | zero =>
    intro ctx hashed hres hpos hfuel
    have hp : ctx.pos = ctx.stream.length := by omega
    obtain ⟨st, p, o, r⟩ := ctx
    simp at hp hres
    subst hp hres
    simp [compressLoop, List.drop_length, readChunks, readChunksF]
  | succ f ih =>
    intro ctx hashed hres hpos hfuel
    by_cases heof : ctx.stream.length ≤ ctx.pos
    · have hp : ctx.pos = ctx.stream.length := by omega
      obtain ⟨st, p, o, r⟩ := ctx
      simp at hp hres
      subst hp hres
      simp [compressLoop, ctxReadEof, List.drop_length, readChunks,
        readChunksF]
    · have hlt : ctx.pos < ctx.stream.length := by omega
      have hne : ctx.stream.drop ctx.pos ≠ [] := by
        intro hnil
        have := List.length_drop ctx.pos ctx.stream
        rw [hnil] at this
        simp at this
        omega
      rw [compressLoop]
      have heq : ctxReadEof ctx = false := by
        simp [ctxReadEof]; omega
      rw [heq]
      simp only [Bool.false_eq_true, if_false, ctxRead]
      rw [compressBlockF_ok (by exact hres)]
      set src := (ctx.stream.drop ctx.pos).take n with hsrc
      have hsrclen : 0 < src.length := by
        rw [hsrc, List.length_take]
        cases hl : ctx.stream.drop ctx.pos with
        | nil => exact absurd hl hne
        | cons y ys => simp; omega
      have hsrcle : src.length ≤ ctx.stream.length - ctx.pos := by
        rw [hsrc, List.length_take]
        have := List.length_drop ctx.pos ctx.stream
        omega
      dsimp only
      rw [ih { stream := ctx.stream, pos := ctx.pos + src.length,
               output := ctx.output ++ compressRecord comp xxh bc src,
               result := ctx.result }
            (if sc then hashed ++ src else hashed)
            (by exact hres) (by simp; omega) (by simp; omega)]
      have hdrop : ctx.stream.drop (ctx.pos + src.length)
          = (ctx.stream.drop ctx.pos).drop n := by
        rw [← List.drop_drop]
        rw [hsrc, drop_take_length]
      have hchunks : readChunks n (ctx.stream.drop ctx.pos)
          = src :: readChunks n ((ctx.stream.drop ctx.pos).drop n) :=
        readChunks_cons hn hne
      dsimp only
      simp only [Prod.mk.injEq, Lz4MtContext.mk.injEq, and_true, true_and]
      refine ⟨?_, ?_⟩
      · cases sc with
        | false => rfl
        | true =>
          simp only [if_true]
          rw [hdrop, List.append_assoc]
          congr 1
          have : src ++ (ctx.stream.drop ctx.pos).drop n
              = ctx.stream.drop ctx.pos := by
            rw [hsrc]
            exact List.take_append_drop n _
          exact this
      · rw [hdrop, hchunks]
        simp [List.append_assoc]

/-- The full byte stream `lz4mtCompress` writes for input `S` and a valid
descriptor `sd`: header, the block records of the producer's chunks, the
EOS word, and, when the stream checksum is on, the digest of `S`. -/
def compressedFrame (comp : List Nat → Option (List Nat))
    (xxh : List Nat → Nat) (sd : Lz4MtStreamDescriptor) (S : List Nat) :
    List Nat :=
  headerBytes xxh sd
  ++ ((readChunks (getBlocksize sd.bd.blockMaximumSize) S).map
      (compressRecord comp xxh (decide (sd.flg.blockChecksum ≠ 0)))).flatten
  ++ storeU32 LZ4S_EOS
  ++ (if sd.flg.streamChecksum ≠ 0 then storeU32 (xxh S) else [])

theorem lz4mtCompress_eq (comp : List Nat → Option (List Nat))
    (xxh : List Nat → Nat) (sd : Lz4MtStreamDescriptor) (S : List Nat)
    (hsd : validateStreamDescriptor sd = Lz4MtResult.OK) :
    lz4mtCompress comp xxh ⟨S, 0, [], Lz4MtResult.OK⟩ sd
      = (Lz4MtResult.OK,
         ⟨S, S.length, compressedFrame comp xxh sd S, Lz4MtResult.OK⟩) := by
  rw [lz4mtCompress]
  simp only [hsd, ne_eq, not_true_eq_false, if_false, reduceIte]
  rw [compressLoop_eq comp xxh _ _ (getBlocksize_pos _) _ _ _
    (by rfl) (by simp) (by simp)]
  dsimp only
  rw [List.nil_append, List.drop_zero, List.nil_append]
  rw [writeU32_ok (by rfl)]
  dsimp only
  rw [if_neg (by simp)]
  by_cases hsc : sd.flg.streamChecksum = 0
  · rw [hsc]
    rw [if_neg (by simp)]
    rw [compressedFrame, hsc]
    rw [if_neg (by simp)]
    rw [List.append_nil, List.append_assoc]
  · rw [if_pos hsc]
    rw [if_pos (decide_eq_true hsc)]
    rw [writeU32_ok (by rfl)]
    dsimp only
    rw [if_neg (by simp)]
    rw [compressedFrame, if_pos hsc]

/-! ## Exact-multiple chunking (claim C8) -/

theorem readChunksF_exact {n : Nat} (hn : 0 < n) :
    ∀ (k fuel : Nat) (l : List Nat), l.length ≤ fuel → l.length = n * k →
    (readChunksF n fuel l).length = k ∧
    ∀ ch ∈ readChunksF n fuel l, ch.length = n := by
  intro k
  induction k with
  | zero =>
    intro fuel l hf hl
    rw [Nat.mul_zero] at hl
    have : l = [] := List.eq_nil_of_length_eq_zero hl
    subst this
    cases fuel <;> simp [readChunksF]
  | succ k ih =>
    intro fuel l hf hl
    have hlen : l.length = n * k + n := by rw [hl, Nat.mul_succ]
    have hpos : 0 < l.length := by omega
    cases l with
    | nil => simp at hpos
    | cons x xs =>
      cases fuel with
      | zero => simp at hf
      | succ f =>
        simp only [readChunksF]
        simp only [List.length_cons] at hlen hf
        have htake : ((x :: xs).take n).length = n := by
          rw [List.length_take, List.length_cons]
          omega
        have hdroplen : ((x :: xs).drop n).length = n * k := by
          rw [List.length_drop, List.length_cons]
          omega
        have hdf : ((x :: xs).drop n).length ≤ f := by
          rw [hdroplen]
          omega
        obtain ⟨ih1, ih2⟩ := ih f ((x :: xs).drop n) hdf hdroplen
        refine ⟨by simp [ih1], ?_⟩
        intro ch hch
        rcases List.mem_cons.mp hch with rfl | hch
        · exact htake
        · exact ih2 ch hch

/-- Claim C8: when the input length is a positive exact multiple of the
block maximum size, the producer reads exactly `S.length / n` chunks, every
chunk — the final one included — is a full `blockMaximumSize`-byte block of
uncompressed input, and the compressed stream is the header, those block
records, and then immediately the EOS word (followed only by the optional
stream digest). -/
theorem compress_exact_multiple (comp : List Nat → Option (List Nat))
    (xxh : List Nat → Nat) (sd : Lz4MtStreamDescriptor) (S : List Nat)
    (k : Nat) (hsd : validateStreamDescriptor sd = Lz4MtResult.OK)
    (hk : 0 < k)
    (hlen : S.length = getBlocksize sd.bd.blockMaximumSize * k) :
    (readChunks (getBlocksize sd.bd.blockMaximumSize) S).length = k ∧
    (∀ ch ∈ readChunks (getBlocksize sd.bd.blockMaximumSize) S,
      ch.length = getBlocksize sd.bd.blockMaximumSize) ∧
    (∃ last, (readChunks (getBlocksize sd.bd.blockMaximumSize) S).getLast?
        = some last ∧ last.length = getBlocksize sd.bd.blockMaximumSize) ∧
    (lz4mtCompress comp xxh ⟨S, 0, [], Lz4MtResult.OK⟩ sd).2.output
      = headerBytes xxh sd
        ++ ((readChunks (getBlocksize sd.bd.blockMaximumSize) S).map
            (compressRecord comp xxh (decide (sd.flg.blockChecksum ≠ 0)))).flatten
        ++ storeU32 LZ4S_EOS
        ++ (if sd.flg.streamChecksum ≠ 0 then storeU32 (xxh S) else []) := by
  have hn : 0 < getBlocksize sd.bd.blockMaximumSize := getBlocksize_pos _
  obtain ⟨hcount, hfull⟩ := readChunksF_exact hn k S.length S (le_refl _) hlen
  have hcount' : (readChunks (getBlocksize sd.bd.blockMaximumSize) S).length
      = k := hcount
  have hfull' : ∀ ch ∈ readChunks (getBlocksize sd.bd.blockMaximumSize) S,
      ch.length = getBlocksize sd.bd.blockMaximumSize := hfull
  refine ⟨hcount', hfull', ?_, ?_⟩
  · have hne : readChunks (getBlocksize sd.bd.blockMaximumSize) S ≠ [] := by
      intro h
      rw [h] at hcount'
      simp at hcount'
      omega
    exact ⟨_, List.getLast?_eq_getLast _ hne, hfull' _ (List.getLast_mem hne)⟩
  · rw [lz4mtCompress_eq comp xxh sd S hsd]
    rfl

/-! ## Claim C2 -/

theorem ctxRead_eq {ctx : Lz4MtContext} {pre post : List Nat} {n : Nat}
    (hstream : ctx.stream.drop ctx.pos = pre ++ post) (hn : pre.length = n) :
    ctxRead ctx n = (pre, { ctx with pos := ctx.pos + n }) := by
  rw [ctxRead]
  rw [hstream, List.take_left' hn, hn]

theorem readU32_eq {ctx : Lz4MtContext} {v : Nat} {post : List Nat}
    (hres : ctx.result = Lz4MtResult.OK)
    (hstream : ctx.stream.drop ctx.pos = storeU32 v ++ post)
    (hv : v < 2 ^ 32) :
    readU32 ctx = (v, { ctx with pos := ctx.pos + 4 }) := by
  rw [readU32, error_eq_false hres]
  simp only [Bool.false_eq_true, if_false, reduceIte]
  rw [ctxRead_eq hstream (storeU32_length v)]
  simp [loadU32_storeU32 hv, storeU32_length]

/-- Claim C2: with the stream checksum enabled, (a) the digest
`lz4mtCompress` writes right after the EOS word is the xxHash32 (seed 0) of
the full uncompressed input in input order — the producer folds exactly the
chunks it reads, in order, into the hasher — and (b) after a frame with no
prior error, the decoder reads the LE u32 trailer and ends with
`STREAM_CHECKSUM_MISMATCH` iff its recomputed digest differs from the
trailer. -/
theorem streamChecksum_digest (comp : List Nat → Option (List Nat))
    (xxh : List Nat → Nat) (sd : Lz4MtStreamDescriptor) (S : List Nat)
    (hsd : validateStreamDescriptor sd = Lz4MtResult.OK)
    (hsc : sd.flg.streamChecksum ≠ 0) :
    (lz4mtCompress comp xxh ⟨S, 0, [], Lz4MtResult.OK⟩ sd).2.output
      = headerBytes xxh sd
        ++ ((readChunks (getBlocksize sd.bd.blockMaximumSize) S).map
            (compressRecord comp xxh (decide (sd.flg.blockChecksum ≠ 0)))).flatten
        ++ storeU32 LZ4S_EOS
        ++ storeU32 (xxh S) ∧
    (∀ (ctx : Lz4MtContext) (hashed : List Nat) (v : Nat) (post : List Nat),
      ctx.result = Lz4MtResult.OK →
      ctx.stream.drop ctx.pos = storeU32 v ++ post → v < 2 ^ 32 →
      ((checkStreamChecksum xxh ctx true hashed).result
          = Lz4MtResult.STREAM_CHECKSUM_MISMATCH ↔ xxh hashed ≠ v)) := by
  constructor
  · rw [lz4mtCompress_eq comp xxh sd S hsd]
    show compressedFrame comp xxh sd S = _
    rw [compressedFrame, if_pos hsc]
  · intro ctx hashed v post hres hstream hv
    rw [checkStreamChecksum]
    rw [if_pos (by exact ⟨by simp [error, hres], rfl⟩)]
    rw [readU32_eq hres hstream hv]
    dsimp only
    have herr : error { ctx with pos := ctx.pos + 4 } = false :=
      error_eq_false (by exact hres)
    rw [herr]
    rw [if_neg (by simp)]
    by_cases hd : xxh hashed = v
    · rw [if_neg (by simpa using hd)]
      constructor
      · intro h
        dsimp only at h
        rw [hres] at h
        cases h
      · intro h
        exact absurd hd h
    · rw [if_pos (by simpa using hd)]
      rw [setResult_ok (by exact hres)]
      simpa using hd

/-! ## Concrete instances used by witnesses -/

/-- A concrete hash function standing in for the abstract xxHash32
parameter in witnesses. -/
def cXxh0 : List Nat → Nat := fun _ => 0

/-- A concrete compress callback that always reports incompressible. -/
def cCompNone : List Nat → Option (List Nat) := fun _ => none

/-- A concrete decompress callback (never reached on incompressible-only
streams). -/
def cDecompNil : List Nat → List Nat := fun _ => []

/-- A valid descriptor with the stream checksum enabled (the library
default shape: version 1, independent 64 KiB blocks). -/
def cSdSC : Lz4MtStreamDescriptor := ⟨⟨0, 0, 1, 0, 0, 1, 1⟩, ⟨0, 4, 0⟩, 0, 0⟩

/-- A valid descriptor with the stream checksum disabled. -/
def cSdPlain : Lz4MtStreamDescriptor :=
  ⟨⟨0, 0, 0, 0, 0, 1, 1⟩, ⟨0, 4, 0⟩, 0, 0⟩

/-- Witness for `compress_exact_multiple` (one full 64 KiB block). -/
theorem compress_exact_multiple_witness :
    (readChunks (getBlocksize cSdPlain.bd.blockMaximumSize)
      (List.replicate 65536 0)).length = 1 ∧
    (∀ ch ∈ readChunks (getBlocksize cSdPlain.bd.blockMaximumSize)
        (List.replicate 65536 0),
      ch.length = getBlocksize cSdPlain.bd.blockMaximumSize) ∧
    (∃ last, (readChunks (getBlocksize cSdPlain.bd.blockMaximumSize)
        (List.replicate 65536 0)).getLast?
        = some last ∧ last.length = getBlocksize cSdPlain.bd.blockMaximumSize) ∧
    (lz4mtCompress cCompNone cXxh0
        ⟨List.replicate 65536 0, 0, [], Lz4MtResult.OK⟩ cSdPlain).2.output
      = headerBytes cXxh0 cSdPlain
        ++ ((readChunks (getBlocksize cSdPlain.bd.blockMaximumSize)
              (List.replicate 65536 0)).map
            (compressRecord cCompNone cXxh0
              (decide (cSdPlain.flg.blockChecksum ≠ 0)))).flatten
        ++ storeU32 LZ4S_EOS
        ++ (if cSdPlain.flg.streamChecksum ≠ 0 then storeU32 (cXxh0
              (List.replicate 65536 0)) else []) :=
  compress_exact_multiple cCompNone cXxh0 cSdPlain (List.replicate 65536 0) 1
    (by decide) (by decide) (by rw [List.length_replicate]; decide)

/-- Witness for `streamChecksum_digest`. -/
theorem streamChecksum_digest_witness :
    (lz4mtCompress cCompNone cXxh0 ⟨[1, 2, 3], 0, [], Lz4MtResult.OK⟩
        cSdSC).2.output
      = headerBytes cXxh0 cSdSC
        ++ ((readChunks (getBlocksize cSdSC.bd.blockMaximumSize)
              [1, 2, 3]).map
            (compressRecord cCompNone cXxh0
              (decide (cSdSC.flg.blockChecksum ≠ 0)))).flatten
        ++ storeU32 LZ4S_EOS
        ++ storeU32 (cXxh0 [1, 2, 3]) ∧
    ((checkStreamChecksum cXxh0 ⟨storeU32 5, 0, [], Lz4MtResult.OK⟩ true
        [7]).result = Lz4MtResult.STREAM_CHECKSUM_MISMATCH
      ↔ cXxh0 [7] ≠ 5) :=
  ⟨(streamChecksum_digest cCompNone cXxh0 cSdSC [1, 2, 3] (by decide)
      (by decide)).1,
   (streamChecksum_digest cCompNone cXxh0 cSdSC [1, 2, 3] (by decide)
      (by decide)).2 ⟨storeU32 5, 0, [], Lz4MtResult.OK⟩ [7] 5 [] (by rfl)
     (by simp) (by decide)⟩

/-! ## Decode-side helper lemmas -/

theorem storeU64_length (v : Nat) : (storeU64 v).length = 8 := rfl

theorem drop_add_of_drop_eq {s : List Nat} {p : Nat} {pre post : List Nat}
    (h : s.drop p = pre ++ post) : s.drop (p + pre.length) = post := by
  rw [← List.drop_drop, h, List.drop_left]

theorem ctxReadEof_false {ctx : Lz4MtContext}
    (h : ctx.stream.drop ctx.pos ≠ []) : ctxReadEof ctx = false := by
  simp only [ctxReadEof, decide_eq_false_iff_not, not_le]
  rcases Nat.lt_or_ge ctx.pos ctx.stream.length with h' | h'
  · exact h'
  · exact absurd (List.drop_eq_nil_of_le h') h

theorem validateStreamDescriptor_ok_fields {sd : Lz4MtStreamDescriptor}
    (h : validateStreamDescriptor sd = Lz4MtResult.OK) :
    sd.flg.versionNumber = 1 ∧ sd.flg.presetDictionary = 0 ∧
    sd.flg.reserved1 = 0 ∧ sd.flg.blockIndependance ≠ 0 ∧
    4 ≤ sd.bd.blockMaximumSize ∧ sd.bd.blockMaximumSize ≤ 7 ∧
    sd.bd.reserved3 = 0 ∧ sd.bd.reserved2 = 0 := by
  unfold validateStreamDescriptor at h
  split_ifs at h
  refine ⟨?_, ?_, ?_, ?_, ?_, ?_, ?_, ?_⟩ <;> omega

theorem validateStreamDescriptor_congr {sd1 sd2 : Lz4MtStreamDescriptor}
    (hf : sd1.flg = sd2.flg) (hb : sd1.bd = sd2.bd) :
    validateStreamDescriptor sd1 = validateStreamDescriptor sd2 := by
  unfold validateStreamDescriptor
  rw [hf, hb]

theorem charToFlg_flgToChar_of_range {f : Lz4MtFlg}
    (h1 : f.presetDictionary < 2) (h2 : f.reserved1 < 2)
    (h3 : f.streamChecksum < 2) (h4 : f.streamSize < 2)
    (h5 : f.blockChecksum < 2) (h6 : f.blockIndependance < 2)
    (h7 : f.versionNumber < 4) : charToFlg (flgToChar f) = f := by
  have := charToFlg_flgToChar ⟨f.presetDictionary, h1⟩ ⟨f.reserved1, h2⟩
    ⟨f.streamChecksum, h3⟩ ⟨f.streamSize, h4⟩ ⟨f.blockChecksum, h5⟩
    ⟨f.blockIndependance, h6⟩ ⟨f.versionNumber, h7⟩
  simpa using this

theorem charToBc_bdToChar_of_range {b : Lz4MtBd}
    (h1 : b.reserved3 < 16) (h2 : b.blockMaximumSize < 8)
    (h3 : b.reserved2 < 2) : charToBc (bdToChar b) = b := by
  have := charToBc_bdToChar ⟨b.reserved3, h1⟩ ⟨b.blockMaximumSize, h2⟩
    ⟨b.reserved2, h3⟩
  simpa using this

theorem getD_append_length {α : Type _} (l : List α) (a : α) (d : α) :
    (l ++ [a]).getD l.length d = a := by
  induction l with
  | nil => rfl
  | cons x xs ih => exact ih

theorem decompressFrame_header (decomp : List Nat → List Nat)
    (xxh : List Nat → Nat) (fuel : Nat) (ctx : Lz4MtContext)
    (sd0 sd : Lz4MtStreamDescriptor) (body : List Nat)
    (hres : ctx.result = Lz4MtResult.OK)
    (hsd : validateStreamDescriptor sd = Lz4MtResult.OK)
    (hrange : descriptorInRange sd)
    (hstream : ctx.stream.drop ctx.pos = headerBytes xxh sd ++ body) :
    ∃ sdOut, decompressFrame decomp xxh fuel ctx sd0 false =
      (checkStreamChecksum xxh
        (foldResults
          (decompBlockLoop decomp xxh (decide (sd.flg.blockChecksum ≠ 0))
            (decide (sd.flg.streamChecksum ≠ 0)) fuel
            { ctx with pos := ctx.pos + (headerBytes xxh sd).length }
            false [] []).1
          (decompBlockLoop decomp xxh (decide (sd.flg.blockChecksum ≠ 0))
            (decide (sd.flg.streamChecksum ≠ 0)) fuel
            { ctx with pos := ctx.pos + (headerBytes xxh sd).length }
            false [] []).2.2.2)
        (decide (sd.flg.streamChecksum ≠ 0))
        (decompBlockLoop decomp xxh (decide (sd.flg.blockChecksum ≠ 0))
          (decide (sd.flg.streamChecksum ≠ 0)) fuel
          { ctx with pos := ctx.pos + (headerBytes xxh sd).length }
          false [] []).2.2.1,
       sdOut, false,
       (decompBlockLoop decomp xxh (decide (sd.flg.blockChecksum ≠ 0))
         (decide (sd.flg.streamChecksum ≠ 0)) fuel
         { ctx with pos := ctx.pos + (headerBytes xxh sd).length }
         false [] []).2.1) := by
  obtain ⟨hvn, hpd, hr1, hbi, hb4, hb7, hr3, hr2⟩ :=
    validateStreamDescriptor_ok_fields hsd
  obtain ⟨g1, g2, g3, g4, g5, g6, g7, g8, g9, g10, g11, g12⟩ := hrange
  have hflg := charToFlg_flgToChar_of_range g1 g2 g3 g4 g5 g6 g7
  have hbd := charToBc_bdToChar_of_range g8 g9 g10
  have hsum : headerSumBytes sd = [flgToChar sd.flg, bdToChar sd.bd]
      ++ (if sd.flg.streamSize ≠ 0 then storeU64 sd.streamSize else []) := by
    rw [headerSumBytes, hpd]
    simp
  have h1 : ctx.stream.drop ctx.pos = storeU32 LZ4S_MAGICNUMBER
      ++ (headerSumBytes sd
          ++ ([getCheckBits_FromXXH (xxh (headerSumBytes sd))] ++ body)) := by
    rw [hstream, headerBytes]
    simp [List.append_assoc]
  have h2 : ctx.stream.drop (ctx.pos + 4)
      = [flgToChar sd.flg, bdToChar sd.bd]
        ++ ((if sd.flg.streamSize ≠ 0 then storeU64 sd.streamSize else [])
            ++ ([getCheckBits_FromXXH (xxh (headerSumBytes sd))] ++ body)) := by
    have h := drop_add_of_drop_eq h1
    rw [storeU32_length] at h
    rw [h, hsum]
    simp [List.append_assoc]
  have h3 : ctx.stream.drop (ctx.pos + 4 + 2)
      = ((if sd.flg.streamSize ≠ 0 then storeU64 sd.streamSize else [])
          ++ [getCheckBits_FromXXH (xxh (headerSumBytes sd))]) ++ body := by
    have h := drop_add_of_drop_eq h2
    simp only [List.length_cons, List.length_nil] at h
    rw [← List.append_assoc] at h
    exact h
  rw [decompressFrame]
  rw [readU32_eq hres h1 (by decide)]
  dsimp only
  rw [error_eq_false (by exact hres)]
  rw [if_neg (by simp)]
  rw [if_neg (by decide)]
  rw [if_neg (by simp)]
  rw [ctxRead_eq (by exact h2) (by rfl)]
  dsimp only
  rw [if_neg (by simp)]
  simp only [List.getD_cons_zero, List.getD_cons_succ]
  simp only [hflg, hbd]
  rw [if_neg (by
    rw [@validateStreamDescriptor_congr _ sd (by rfl) (by rfl), hsd]
    simp)]
  simp only [hpd, ne_eq, eq_self_iff_true, not_true_eq_false, if_false,
    add_zero]
  by_cases hss : sd.flg.streamSize = 0
  · have hopt : (if sd.flg.streamSize ≠ 0 then storeU64 sd.streamSize
        else []) = ([] : List Nat) := by simp [hss]
    rw [hopt] at h3 hsum
    simp only [List.nil_append] at h3
    rw [List.append_nil] at hsum
    simp only [hss, eq_self_iff_true, not_true_eq_false, if_false, ne_eq,
      zero_add]
    rw [ctxRead_eq (by exact h3)
      (show ([getCheckBits_FromXXH (xxh (headerSumBytes sd))]
        : List Nat).length = 1 from rfl)]
    dsimp only
    rw [if_neg (by simp)]
    rw [if_neg (by simp [hsum])]
    have hhl : (headerBytes xxh sd).length = 7 := by
      rw [headerBytes, hsum]
      simp [storeU32]
    rw [hhl]
    have harith : ctx.pos + 4 + 2 + 1 = ctx.pos + 7 := by omega
    rw [harith]
    exact ⟨_, rfl⟩
  · have hopt : (if sd.flg.streamSize ≠ 0 then storeU64 sd.streamSize
        else []) = storeU64 sd.streamSize := by simp [hss]
    rw [hopt] at h3 hsum
    simp only [hss, not_false_iff, if_true, ne_eq]
    rw [ctxRead_eq (by exact h3)
      (show (storeU64 sd.streamSize
          ++ [getCheckBits_FromXXH (xxh (headerSumBytes sd))]).length = 8 + 1
        from by simp [storeU64_length])]
    dsimp only
    rw [if_neg (by simp [storeU64_length])]
    have htake : (storeU64 sd.streamSize
        ++ [getCheckBits_FromXXH (xxh (headerSumBytes sd))]).take (8 + 1 - 1)
        = storeU64 sd.streamSize :=
      List.take_left' (storeU64_length _)
    have hgetD : (storeU64 sd.streamSize
        ++ [getCheckBits_FromXXH (xxh (headerSumBytes sd))]).getD (8 + 1 - 1) 0
        = getCheckBits_FromXXH (xxh (headerSumBytes sd)) := by
      have h := getD_append_length (storeU64 sd.streamSize)
        (getCheckBits_FromXXH (xxh (headerSumBytes sd))) 0
      rwa [storeU64_length] at h
    rw [if_neg (by
      rw [hgetD, htake]
      simp [hsum])]
    have hhl : (headerBytes xxh sd).length = 15 := by
      rw [headerBytes, hsum]
      simp [storeU32, storeU64, storeU64_length]
    rw [hhl]
    have harith : ctx.pos + 4 + 2 + (8 + 1) = ctx.pos + 15 := by omega
    rw [harith]
    exact ⟨_, rfl⟩

/-! ## Closed form of the decompress block loop -/

theorem decompBlockLoop_step (decomp : List Nat → List Nat)
    (xxh : List Nat → Nat) (bc sc : Bool) (f : Nat) (ctx : Lz4MtContext)
    (hashed : List Nat) (results : List Lz4MtResult) (w : Nat)
    (payload rest' : List Nat)
    (hres : ctx.result = Lz4MtResult.OK)
    (hw32 : w < 2 ^ 32) (hw0 : w ≠ 0) (hxp : xxh payload < 2 ^ 32)
    (hsz : decodedSrcSize w = payload.length)
    (hstream : ctx.stream.drop ctx.pos = storeU32 w
      ++ (payload ++ ((if bc then storeU32 (xxh payload) else [])
          ++ rest'))) :
    decompBlockLoop decomp xxh bc sc (f + 1) ctx false hashed results
      = decompBlockLoop decomp xxh bc sc f
          { ctx with
              pos := ctx.pos + 4 + payload.length + (if bc then 4 else 0),
              output := ctx.output ++ (if decodedIncompressible w then payload
                else decomp payload) }
          false
          (if sc then hashed ++ (if decodedIncompressible w then payload
            else decomp payload) else hashed)
          (results ++ [Lz4MtResult.OK]) := by
  rw [decompBlockLoop]
  rw [ctxReadEof_false (by rw [hstream]; simp [storeU32])]
  rw [if_neg (by simp)]
  rw [readU32_eq hres hstream hw32]
  dsimp only
  rw [error_eq_false (by exact hres)]
  rw [if_neg (by simp)]
  rw [if_neg (by simp only [LZ4S_EOS]; exact hw0)]
  rw [hsz]
  have hstream2 : ctx.stream.drop (ctx.pos + 4)
      = payload ++ ((if bc then storeU32 (xxh payload) else []) ++ rest') := by
    have h := drop_add_of_drop_eq hstream
    rwa [storeU32_length] at h
  rw [ctxRead_eq (by exact hstream2) (by rfl)]
  dsimp only
  rw [if_neg (by simp [error, hres])]
  cases bc with
  | false =>
    simp only [if_neg Bool.false_ne_true]
    rw [if_neg (by simp [error, hres])]
    rw [decompWorkerF]
    rw [if_neg (by simp [error, hres])]
    rw [if_neg (by simp)]
    cases hinc : decodedIncompressible w with
    | true =>
      rw [if_pos (by rfl)]
      rw [writeBin_ok (by exact hres)]
      simp
    | false =>
      rw [if_neg (by simp)]
      dsimp only
      rw [writeBin_ok (by exact hres)]
      simp
  | true =>
    simp only [eq_self_iff_true, if_true] at hstream2 ⊢
    have hstream3 : ctx.stream.drop (ctx.pos + 4 + payload.length)
        = storeU32 (xxh payload) ++ rest' := by
      exact drop_add_of_drop_eq hstream2
    rw [readU32_eq (by exact hres) (by exact hstream3) (hxp)]
    dsimp only
    rw [if_neg (by simp [error, hres])]
    rw [decompWorkerF]
    rw [if_neg (by simp [error, hres])]
    rw [if_neg (by simp)]
    cases hinc : decodedIncompressible w with
    | true =>
      rw [if_pos (by rfl)]
      rw [writeBin_ok (by exact hres)]
      simp
    | false =>
      rw [if_neg (by simp)]
      dsimp only
      rw [writeBin_ok (by exact hres)]
      simp

theorem decompBlockLoop_eq (comp : List Nat → Option (List Nat))
    (decomp : List Nat → List Nat) (xxh : List Nat → Nat) (bc sc : Bool)
    (hxxh : ∀ l, xxh l < 2 ^ 32) :
    ∀ (chunks : List (List Nat)) (fuel : Nat) (ctx : Lz4MtContext)
      (hashed : List Nat) (results : List Lz4MtResult) (post : List Nat),
    ctx.result = Lz4MtResult.OK →
    ctx.stream.drop ctx.pos
      = ((chunks.map (compressRecord comp xxh bc)).flatten)
        ++ (storeU32 LZ4S_EOS ++ post) →
    (∀ ch ∈ chunks, ch ≠ [] ∧ ch.length < 2 ^ 31 ∧
      ∀ c, comp ch = some c →
        (c ≠ [] ∧ c.length ≤ ch.length ∧ decomp c = ch)) →
    chunks.length < fuel →
    decompBlockLoop decomp xxh bc sc fuel ctx false hashed results =
      ({ ctx with
          pos := ctx.pos
            + ((chunks.map (compressRecord comp xxh bc)).flatten).length + 4,
          output := ctx.output ++ chunks.flatten },
       false,
       (if sc then hashed ++ chunks.flatten else hashed),
       results ++ List.replicate chunks.length Lz4MtResult.OK) := by
  intro chunks
  induction chunks with
  | nil =>
    intro fuel ctx hashed results post hres hstream hmem hfuel
    cases fuel with
    | zero => omega
    | succ f =>
      simp only [List.map_nil, List.flatten_nil, List.nil_append] at hstream
      rw [decompBlockLoop]
      rw [ctxReadEof_false (by rw [hstream]; simp [storeU32])]
      rw [if_neg (by simp)]
      rw [readU32_eq hres hstream (by decide)]
      dsimp only
      rw [error_eq_false (by exact hres)]
      rw [if_neg (by simp)]
      rw [if_pos (by rfl)]
      simp [List.replicate]
  | cons ch rest ih =>
    intro fuel ctx hashed results post hres hstream hmem hfuel
    obtain ⟨hne, hlen, hcomp⟩ := hmem ch (by simp)
    have hmem' : ∀ x ∈ rest, x ≠ [] ∧ x.length < 2 ^ 31 ∧
        ∀ c, comp x = some c →
          (c ≠ [] ∧ c.length ≤ x.length ∧ decomp c = x) :=
      fun x hx => hmem x (by simp [hx])
    have htl : (if bc then storeU32 (xxh ch) else ([] : List Nat)).length
        = (if bc then 4 else 0) := by cases bc <;> simp [storeU32]
    cases fuel with
    | zero => simp at hfuel
    | succ f =>
      have hfuel' : rest.length < f := by simp at hfuel; omega
      cases hcm : comp ch with
      | none =>
        have hw : ch.length ||| cIncompressible = ch.length + 2 ^ 31 :=
          lor_cIncompressible hlen
        have hreclen : (compressRecord comp xxh bc ch).length
            = 4 + ch.length + (if bc then 4 else 0) := by
          rw [compressRecord, hcm]
          cases bc <;> simp [storeU32] <;> omega
        have hstream1 : ctx.stream.drop ctx.pos
            = storeU32 (ch.length + 2 ^ 31)
              ++ (ch ++ ((if bc then storeU32 (xxh ch) else [])
                ++ ((rest.map (compressRecord comp xxh bc)).flatten
                    ++ (storeU32 LZ4S_EOS ++ post)))) := by
          rw [hstream]
          simp only [List.map_cons, List.flatten_cons]
          rw [compressRecord, hcm, hw]
          simp [List.append_assoc]
        rw [decompBlockLoop_step decomp xxh bc sc f ctx hashed results
          (ch.length + 2 ^ 31) ch _ hres (by omega) (by omega) (hxxh ch)
          (decodedSrcSize_add_top hlen) hstream1]
        simp only [decodedIncompressible_add_top hlen, if_true,
          eq_self_iff_true]
        have hstream2 := drop_add_of_drop_eq hstream1
        rw [storeU32_length] at hstream2
        have hstream3 := drop_add_of_drop_eq hstream2
        have hstream4 := drop_add_of_drop_eq hstream3
        rw [htl] at hstream4
        rw [ih f _ _ _ post (by exact hres) (by exact hstream4) hmem'
          hfuel']
        simp only [Prod.mk.injEq, Lz4MtContext.mk.injEq, and_true, true_and]
        refine ⟨⟨?_, ?_⟩, ?_, ?_⟩
        · show ctx.pos + 4 + ch.length + (if bc then 4 else 0)
            + ((rest.map (compressRecord comp xxh bc)).flatten).length + 4
            = _
          simp only [List.map_cons, List.flatten_cons, List.length_append,
            hreclen]
          omega
        · rw [List.flatten_cons, List.append_assoc]
        · cases sc <;> simp [List.append_assoc]
        · simp [List.replicate_succ, List.append_assoc]
      | some c =>
        obtain ⟨hcne, hcle, hdec⟩ := hcomp c hcm
        have hclen : c.length < 2 ^ 31 := lt_of_le_of_lt hcle hlen
        have htl2 : (if bc then storeU32 (xxh c) else ([] : List Nat)).length
            = (if bc then 4 else 0) := by cases bc <;> simp [storeU32]
        have hreclen : (compressRecord comp xxh bc ch).length
            = 4 + c.length + (if bc then 4 else 0) := by
          rw [compressRecord, hcm]
          cases bc <;> simp [storeU32] <;> omega
        have hstream1 : ctx.stream.drop ctx.pos
            = storeU32 c.length
              ++ (c ++ ((if bc then storeU32 (xxh c) else [])
                ++ ((rest.map (compressRecord comp xxh bc)).flatten
                    ++ (storeU32 LZ4S_EOS ++ post)))) := by
          rw [hstream]
          simp only [List.map_cons, List.flatten_cons]
          rw [compressRecord, hcm]
          simp [List.append_assoc]
        rw [decompBlockLoop_step decomp xxh bc sc f ctx hashed results
          c.length c _ hres (by omega)
          (fun h => hcne (List.eq_nil_of_length_eq_zero h)) (hxxh c)
          (decodedSrcSize_of_lt hclen) hstream1]
        simp only [decodedIncompressible_of_lt hclen,
          if_neg Bool.false_ne_true]
        rw [hdec]
        have hstream2 := drop_add_of_drop_eq hstream1
        rw [storeU32_length] at hstream2
        have hstream3 := drop_add_of_drop_eq hstream2
        have hstream4 := drop_add_of_drop_eq hstream3
        rw [htl2] at hstream4
        rw [ih f _ _ _ post (by exact hres) (by exact hstream4) hmem'
          hfuel']
        simp only [Prod.mk.injEq, Lz4MtContext.mk.injEq, and_true, true_and]
        refine ⟨⟨?_, ?_⟩, ?_, ?_⟩
        · show ctx.pos + 4 + c.length + (if bc then 4 else 0)
            + ((rest.map (compressRecord comp xxh bc)).flatten).length + 4
            = _
          simp only [List.map_cons, List.flatten_cons, List.length_append,
            hreclen]
          omega
        · rw [List.flatten_cons, List.append_assoc]
        · cases sc <;> simp [List.append_assoc]
        · simp [List.replicate_succ, List.append_assoc]

theorem foldResults_replicate_ok :
    ∀ (nn : Nat) (ctx : Lz4MtContext),
    foldResults ctx (List.replicate nn Lz4MtResult.OK) = ctx := by
  intro nn
  induction nn with
  | zero => intro ctx; rfl
  | succ m ih =>
    intro ctx
    rw [List.replicate_succ, foldResults]
    simp only [ne_eq, eq_self_iff_true, not_true_eq_false, if_false, reduceIte]
    exact ih ctx

theorem compressRecord_length_ge (comp : List Nat → Option (List Nat))
    (xxh : List Nat → Nat) (bc : Bool) (ch : List Nat) :
    4 ≤ (compressRecord comp xxh bc ch).length := by
  rw [compressRecord]
  cases comp ch <;> cases bc <;> simp [storeU32]

theorem length_le_flatten_map (g : List Nat → List Nat) :
    ∀ (l : List (List Nat)), (∀ x ∈ l, 1 ≤ (g x).length) →
    l.length ≤ ((l.map g).flatten).length := by
  intro l
  induction l with
  | nil => intro; simp
  | cons x xs ih =>
    intro h
    simp only [List.map_cons, List.flatten_cons, List.length_append,
      List.length_cons]
    have h1 := h x (by simp)
    have h2 := ih (fun y hy => h y (by simp [hy]))
    omega

theorem checkStreamChecksum_false (xxh : List Nat → Nat)
    (ctx : Lz4MtContext) (hashed : List Nat) :
    checkStreamChecksum xxh ctx false hashed = ctx := by
  rw [checkStreamChecksum]
  simp

theorem decompressOuter_stop (decomp : List Nat → List Nat)
    (xxh : List Nat → Nat) (ctx : Lz4MtContext)
    (sd : Lz4MtStreamDescriptor) (quit : Bool)
    (h : quit = true ∨ error ctx = true ∨ ctxReadEof ctx = true) :
    ∀ fuel, decompressOuter decomp xxh fuel ctx sd quit = (ctx, sd) := by
  intro fuel
  cases fuel with
  | zero => rfl
  | succ f =>
    rw [decompressOuter]
    rw [if_pos h]

theorem fst_pair {α β : Type _} (a : α) (b : β) : (a, b).1 = a := rfl

theorem snd_pair {α β : Type _} (a : α) (b : β) : (a, b).2 = b := rfl

theorem lz4mtDecompress_eq_outer (decomp : List Nat → List Nat)
    (xxh : List Nat → Nat) (stream : List Nat) (pos : Nat)
    (out : List Nat) (sd0 : Lz4MtStreamDescriptor) :
    lz4mtDecompress decomp xxh ⟨stream, pos, out, Lz4MtResult.OK⟩ sd0
      = ((decompressOuter decomp xxh (stream.length + 1)
            ⟨stream, pos, out, Lz4MtResult.OK⟩ sd0 false).1.result,
         (decompressOuter decomp xxh (stream.length + 1)
            ⟨stream, pos, out, Lz4MtResult.OK⟩ sd0 false).1,
         (decompressOuter decomp xxh (stream.length + 1)
            ⟨stream, pos, out, Lz4MtResult.OK⟩ sd0 false).2) := by
  rw [lz4mtDecompress]
  rw [setResult_ok (by rfl)]

theorem decompressOuter_frame_continue (decomp : List Nat → List Nat)
    (xxh : List Nat → Nat) (fuel : Nat) (ctx ctx' : Lz4MtContext)
    (sd sd' : Lz4MtStreamDescriptor)
    (herr : error ctx = false) (heof : ctxReadEof ctx = false)
    (hframe : decompressFrame decomp xxh (ctx.stream.length + 1) ctx sd false
      = (ctx', sd', false, false)) :
    decompressOuter decomp xxh (fuel + 1) ctx sd false
      = decompressOuter decomp xxh fuel ctx' sd' false := by
  rw [decompressOuter]
  rw [if_neg (by simp [herr, heof])]
  rw [hframe]
  dsimp only
  rw [if_neg Bool.false_ne_true]

theorem checkStreamChecksum_pass (xxh : List Nat → Nat)
    (ctx : Lz4MtContext) (hashed : List Nat) (v : Nat) (post : List Nat)
    (hres : ctx.result = Lz4MtResult.OK)
    (hstream : ctx.stream.drop ctx.pos = storeU32 v ++ post)
    (hv : v < 2 ^ 32) (heq : xxh hashed = v) :
    checkStreamChecksum xxh ctx true hashed
      = { ctx with pos := ctx.pos + 4 } := by
  rw [checkStreamChecksum]
  rw [if_pos (by exact ⟨by simp [error, hres], rfl⟩)]
  rw [readU32_eq hres hstream hv]
  dsimp only
  rw [error_eq_false (by exact hres)]
  rw [if_neg (by simp)]
  rw [if_neg (by simpa using heq)]

theorem decompressFrame_header_flat (decomp : List Nat → List Nat)
    (xxh : List Nat → Nat) (fuel : Nat) (stream : List Nat) (pos : Nat)
    (out : List Nat) (sd0 sd : Lz4MtStreamDescriptor) (body : List Nat)
    (hsd : validateStreamDescriptor sd = Lz4MtResult.OK)
    (hrange : descriptorInRange sd)
    (hstream : stream.drop pos = headerBytes xxh sd ++ body) :
    ∃ sdOut, decompressFrame decomp xxh fuel
        ⟨stream, pos, out, Lz4MtResult.OK⟩ sd0 false =
      (checkStreamChecksum xxh
        (foldResults
          (decompBlockLoop decomp xxh (decide (sd.flg.blockChecksum ≠ 0))
            (decide (sd.flg.streamChecksum ≠ 0)) fuel
            ⟨stream, pos + (headerBytes xxh sd).length, out, Lz4MtResult.OK⟩
            false [] []).1
          (decompBlockLoop decomp xxh (decide (sd.flg.blockChecksum ≠ 0))
            (decide (sd.flg.streamChecksum ≠ 0)) fuel
            ⟨stream, pos + (headerBytes xxh sd).length, out, Lz4MtResult.OK⟩
            false [] []).2.2.2)
        (decide (sd.flg.streamChecksum ≠ 0))
        (decompBlockLoop decomp xxh (decide (sd.flg.blockChecksum ≠ 0))
          (decide (sd.flg.streamChecksum ≠ 0)) fuel
          ⟨stream, pos + (headerBytes xxh sd).length, out, Lz4MtResult.OK⟩
          false [] []).2.2.1,
       sdOut, false,
       (decompBlockLoop decomp xxh (decide (sd.flg.blockChecksum ≠ 0))
         (decide (sd.flg.streamChecksum ≠ 0)) fuel
         ⟨stream, pos + (headerBytes xxh sd).length, out, Lz4MtResult.OK⟩
         false [] []).2.1) := by
  obtain ⟨sdOut, h⟩ := decompressFrame_header decomp xxh fuel
    ⟨stream, pos, out, Lz4MtResult.OK⟩ sd0 sd body (by rfl) hsd hrange
    (by exact hstream)
  exact ⟨sdOut, h⟩

theorem decompBlockLoop_eq_flat (comp : List Nat → Option (List Nat))
    (decomp : List Nat → List Nat) (xxh : List Nat → Nat) (bc sc : Bool)
    (hxxh : ∀ l, xxh l < 2 ^ 32) (chunks : List (List Nat)) (fuel : Nat)
    (stream : List Nat) (pos : Nat) (out hashed : List Nat)
    (results : List Lz4MtResult) (post : List Nat)
    (hstream : stream.drop pos
      = ((chunks.map (compressRecord comp xxh bc)).flatten)
        ++ (storeU32 LZ4S_EOS ++ post))
    (hmem : ∀ ch ∈ chunks, ch ≠ [] ∧ ch.length < 2 ^ 31 ∧
      ∀ c, comp ch = some c →
        (c ≠ [] ∧ c.length ≤ ch.length ∧ decomp c = ch))
    (hfuel : chunks.length < fuel) :
    decompBlockLoop decomp xxh bc sc fuel ⟨stream, pos, out, Lz4MtResult.OK⟩
        false hashed results =
      (⟨stream,
        pos + ((chunks.map (compressRecord comp xxh bc)).flatten).length + 4,
        out ++ chunks.flatten, Lz4MtResult.OK⟩,
       false,
       (if sc then hashed ++ chunks.flatten else hashed),
       results ++ List.replicate chunks.length Lz4MtResult.OK) := by
  exact decompBlockLoop_eq comp decomp xxh bc sc hxxh chunks fuel
    ⟨stream, pos, out, Lz4MtResult.OK⟩ hashed results post (by rfl)
    (by exact hstream) hmem hfuel

theorem checkStreamChecksum_pass_flat (xxh : List Nat → Nat)
    (stream : List Nat) (pos : Nat) (out hashed : List Nat) (v : Nat)
    (post : List Nat)
    (hstream : stream.drop pos = storeU32 v ++ post)
    (hv : v < 2 ^ 32) (heq : xxh hashed = v) :
    checkStreamChecksum xxh ⟨stream, pos, out, Lz4MtResult.OK⟩ true hashed
      = ⟨stream, pos + 4, out, Lz4MtResult.OK⟩ := by
  exact checkStreamChecksum_pass xxh ⟨stream, pos, out, Lz4MtResult.OK⟩
    hashed v post (by rfl) (by exact hstream) hv heq

theorem lz4mtDecompress_of_compressedFrame
    (comp : List Nat → Option (List Nat)) (decomp : List Nat → List Nat)
    (xxh : List Nat → Nat) (sd sd0 : Lz4MtStreamDescriptor) (S : List Nat)
    (hxxh : ∀ l, xxh l < 2 ^ 32)
    (hbound : ∀ s c, comp s = some c →
      c ≠ [] ∧ c.length ≤ s.length ∧ decomp c = s)
    (hsd : validateStreamDescriptor sd = Lz4MtResult.OK)
    (hrange : descriptorInRange sd) :
    (lz4mtDecompress decomp xxh
      ⟨compressedFrame comp xxh sd S, 0, [], Lz4MtResult.OK⟩ sd0).1
      = Lz4MtResult.OK ∧
    (lz4mtDecompress decomp xxh
      ⟨compressedFrame comp xxh sd S, 0, [], Lz4MtResult.OK⟩ sd0).2.1.output
      = S := by
  obtain ⟨hvn, hpd, hr1, hbi, hb4, hb7, hr3, hr2⟩ :=
    validateStreamDescriptor_ok_fields hsd
  have hnpos : 0 < getBlocksize sd.bd.blockMaximumSize := getBlocksize_pos _
  have hn31 : getBlocksize sd.bd.blockMaximumSize < 2 ^ 31 :=
    getBlocksize_lt (by omega)
  have hjoin : (readChunks (getBlocksize sd.bd.blockMaximumSize) S).flatten
      = S := readChunksF_flatten hnpos S.length S (le_refl _)
  have hmemc : ∀ ch ∈ readChunks (getBlocksize sd.bd.blockMaximumSize) S,
      ch ≠ [] ∧ ch.length < 2 ^ 31 ∧ ∀ c, comp ch = some c →
        (c ≠ [] ∧ c.length ≤ ch.length ∧ decomp c = ch) := by
    intro ch hch
    obtain ⟨h1, h2⟩ := readChunksF_mem hnpos S.length S (le_refl _) ch hch
    exact ⟨h1, lt_of_le_of_lt h2 hn31, fun c hc => hbound ch c hc⟩
  have hcs : compressedFrame comp xxh sd S
      = headerBytes xxh sd
        ++ (((readChunks (getBlocksize sd.bd.blockMaximumSize) S).map
            (compressRecord comp xxh (decide (sd.flg.blockChecksum ≠ 0)))).flatten
          ++ (storeU32 LZ4S_EOS
            ++ (if sd.flg.streamChecksum ≠ 0 then storeU32 (xxh S)
                else []))) := by
    rw [compressedFrame]
    simp [List.append_assoc]
  have hcount : (readChunks (getBlocksize sd.bd.blockMaximumSize) S).length
      ≤ (((readChunks (getBlocksize sd.bd.blockMaximumSize) S).map
          (compressRecord comp xxh
            (decide (sd.flg.blockChecksum ≠ 0)))).flatten).length :=
    length_le_flatten_map _ _ (fun x _ =>
      le_trans (by omega) (compressRecord_length_ge comp xxh _ x))
  have htr : (if sd.flg.streamChecksum ≠ 0 then storeU32 (xxh S)
      else ([] : List Nat)).length
      = (if sd.flg.streamChecksum ≠ 0 then 4 else 0) := by
    split <;> simp [storeU32]
  have hlen_cs : (compressedFrame comp xxh sd S).length
      = (headerBytes xxh sd).length
        + ((((readChunks (getBlocksize sd.bd.blockMaximumSize) S).map
            (compressRecord comp xxh
              (decide (sd.flg.blockChecksum ≠ 0)))).flatten).length
          + (4 + (if sd.flg.streamChecksum ≠ 0 then 4 else 0))) := by
    rw [hcs]
    simp only [List.length_append, storeU32_length, htr]
  have hd0 : (compressedFrame comp xxh sd S).drop 0
      = headerBytes xxh sd
        ++ (((readChunks (getBlocksize sd.bd.blockMaximumSize) S).map
            (compressRecord comp xxh (decide (sd.flg.blockChecksum ≠ 0)))).flatten
          ++ (storeU32 LZ4S_EOS
            ++ (if sd.flg.streamChecksum ≠ 0 then storeU32 (xxh S)
                else []))) := by
    rw [List.drop_zero]
    exact hcs
  have hbody := drop_add_of_drop_eq hd0
  obtain ⟨sdOut, hframe0⟩ := decompressFrame_header_flat decomp xxh
    ((compressedFrame comp xxh sd S).length + 1)
    (compressedFrame comp xxh sd S) 0 [] sd0 sd _ hsd hrange hd0
  have hloop := decompBlockLoop_eq_flat comp decomp xxh
    (decide (sd.flg.blockChecksum ≠ 0)) (decide (sd.flg.streamChecksum ≠ 0))
    hxxh (readChunks (getBlocksize sd.bd.blockMaximumSize) S)
    ((compressedFrame comp xxh sd S).length + 1)
    (compressedFrame comp xxh sd S) (0 + (headerBytes xxh sd).length)
    [] [] []
    (if sd.flg.streamChecksum ≠ 0 then storeU32 (xxh S) else [])
    hbody hmemc (by omega)
  rw [hloop] at hframe0
  simp only [fst_pair, snd_pair, List.nil_append] at hframe0
  rw [foldResults_replicate_ok] at hframe0
  rw [lz4mtDecompress_eq_outer]
  have hhp : 0 < (headerBytes xxh sd).length := by
    rw [headerBytes]
    simp [storeU32]
  have hb2 := drop_add_of_drop_eq hbody
  have hb3 := drop_add_of_drop_eq hb2
  rw [storeU32_length] at hb3
  by_cases hsc : sd.flg.streamChecksum ≠ 0
  · rw [if_pos (by rw [decide_eq_true hsc])] at hframe0
    rw [hjoin] at hframe0
    rw [decide_eq_true hsc] at hframe0
    rw [if_pos hsc, ← List.append_nil (storeU32 (xxh S))] at hb3
    rw [checkStreamChecksum_pass_flat xxh (compressedFrame comp xxh sd S)
      _ S S (xxh S) [] hb3 (hxxh S) rfl] at hframe0
    have hlen4 : (compressedFrame comp xxh sd S).length
        = (headerBytes xxh sd).length
          + ((((readChunks (getBlocksize sd.bd.blockMaximumSize) S).map
              (compressRecord comp xxh
                (decide (sd.flg.blockChecksum ≠ 0)))).flatten).length
            + (4 + 4)) := by
      rw [hlen_cs, if_pos hsc]
    rw [decompressOuter_frame_continue decomp xxh
      ((compressedFrame comp xxh sd S).length) _ _ sd0 sdOut
      (error_eq_false (by rfl))
      (by simp only [ctxReadEof, decide_eq_false_iff_not, not_le]; omega)
      (by exact hframe0)]
    rw [decompressOuter_stop decomp xxh _ sdOut false
      (Or.inr (Or.inr
        (by simp only [ctxReadEof, decide_eq_true_eq]; omega)))]
    exact ⟨rfl, rfl⟩
  · rw [if_neg (by rw [decide_eq_false hsc]; exact Bool.false_ne_true)]
      at hframe0
    rw [hjoin] at hframe0
    rw [decide_eq_false hsc] at hframe0
    rw [checkStreamChecksum_false] at hframe0
    have hlen0 : (compressedFrame comp xxh sd S).length
        = (headerBytes xxh sd).length
          + ((((readChunks (getBlocksize sd.bd.blockMaximumSize) S).map
              (compressRecord comp xxh
                (decide (sd.flg.blockChecksum ≠ 0)))).flatten).length
            + (4 + 0)) := by
      rw [hlen_cs, if_neg hsc]
    rw [decompressOuter_frame_continue decomp xxh
      ((compressedFrame comp xxh sd S).length) _ _ sd0 sdOut
      (error_eq_false (by rfl))
      (by simp only [ctxReadEof, decide_eq_false_iff_not, not_le]; omega)
      (by exact hframe0)]
    rw [decompressOuter_stop decomp xxh _ sdOut false
      (Or.inr (Or.inr
        (by simp only [ctxReadEof, decide_eq_true_eq]; omega)))]
    exact ⟨rfl, rfl⟩

/-- Claim C1: for every byte sequence `S` and every descriptor accepted by
`validateStreamDescriptor` (with fields within their C bitfield widths),
when the compress and decompress callbacks are inverse LZ4 block codecs
(bounded output, positive size, `decomp (comp s) = s`), running
`lz4mtDecompress` on the output of `lz4mtCompress S` returns `OK` and
writes exactly `S` to the sink. -/
theorem roundTrip (comp : List Nat → Option (List Nat))
    (decomp : List Nat → List Nat) (xxh : List Nat → Nat)
    (hxxh : ∀ l, xxh l < 2 ^ 32)
    (hbound : ∀ s c, comp s = some c →
      c ≠ [] ∧ c.length ≤ s.length ∧ decomp c = s)
    (sd sd0 : Lz4MtStreamDescriptor)
    (hsd : validateStreamDescriptor sd = Lz4MtResult.OK)
    (hrange : descriptorInRange sd) (S : List Nat) :
    (lz4mtCompress comp xxh ⟨S, 0, [], Lz4MtResult.OK⟩ sd).1
      = Lz4MtResult.OK ∧
    (lz4mtDecompress decomp xxh
      ⟨(lz4mtCompress comp xxh ⟨S, 0, [], Lz4MtResult.OK⟩ sd).2.output,
       0, [], Lz4MtResult.OK⟩ sd0).1 = Lz4MtResult.OK ∧
    (lz4mtDecompress decomp xxh
      ⟨(lz4mtCompress comp xxh ⟨S, 0, [], Lz4MtResult.OK⟩ sd).2.output,
       0, [], Lz4MtResult.OK⟩ sd0).2.1.output = S := by
  rw [lz4mtCompress_eq comp xxh sd S hsd]
  have hd := lz4mtDecompress_of_compressedFrame comp decomp xxh sd sd0 S
    hxxh hbound hsd hrange
  exact ⟨rfl, hd.1, hd.2⟩

/-- Witness for `roundTrip`. -/
theorem roundTrip_witness :
    (lz4mtCompress cCompNone cXxh0 ⟨[1, 2, 3], 0, [], Lz4MtResult.OK⟩
      cSdSC).1 = Lz4MtResult.OK ∧
    (lz4mtDecompress cDecompNil cXxh0
      ⟨(lz4mtCompress cCompNone cXxh0 ⟨[1, 2, 3], 0, [], Lz4MtResult.OK⟩
          cSdSC).2.output,
       0, [], Lz4MtResult.OK⟩ cSdPlain).1 = Lz4MtResult.OK ∧
    (lz4mtDecompress cDecompNil cXxh0
      ⟨(lz4mtCompress cCompNone cXxh0 ⟨[1, 2, 3], 0, [], Lz4MtResult.OK⟩
          cSdSC).2.output,
       0, [], Lz4MtResult.OK⟩ cSdPlain).2.1.output = [1, 2, 3] :=
  roundTrip cCompNone cDecompNil cXxh0
    (fun l => by show (0 : Nat) < 2 ^ 32; decide)
    (fun s c h => nomatch h) cSdSC cSdPlain (by decide) (by decide) [1, 2, 3]

theorem foldResults_nil (ctx : Lz4MtContext) : foldResults ctx [] = ctx := rfl

theorem checkStreamChecksum_error (xxh : List Nat → Nat)
    (ctx : Lz4MtContext) (sc : Bool) (hashed : List Nat)
    (h : error ctx = true) :
    checkStreamChecksum xxh ctx sc hashed = ctx := by
  rw [checkStreamChecksum]
  rw [if_neg (by simp [h])]

theorem decompressOuter_frame_continue2 (decomp : List Nat → List Nat)
    (xxh : List Nat → Nat) (fuel : Nat) (ctx ctx' : Lz4MtContext)
    (sd sd' : Lz4MtStreamDescriptor) (q' : Bool)
    (herr : error ctx = false) (heof : ctxReadEof ctx = false)
    (hframe : decompressFrame decomp xxh (ctx.stream.length + 1) ctx sd false
      = (ctx', sd', false, q')) :
    decompressOuter decomp xxh (fuel + 1) ctx sd false
      = decompressOuter decomp xxh fuel ctx' sd' q' := by
  rw [decompressOuter]
  rw [if_neg (by simp [herr, heof])]
  rw [hframe]
  dsimp only
  rw [if_neg Bool.false_ne_true]

theorem readU32_short (ctx : Lz4MtContext)
    (hres : ctx.result = Lz4MtResult.OK)
    (hlt : ctx.pos < ctx.stream.length)
    (hshort : ctx.stream.length < ctx.pos + 4) :
    readU32 ctx
      = (0, { stream := ctx.stream, pos := ctx.stream.length,
              output := ctx.output, result := Lz4MtResult.ERROR }) := by
  rw [readU32]
  rw [error_eq_false hres]
  rw [if_neg Bool.false_ne_true]
  rw [ctxRead]
  dsimp only
  rw [if_pos (by
    rw [List.length_take, List.length_drop]
    omega)]
  congr 2
  rw [List.length_take, List.length_drop]
  omega

theorem decompBlockLoop_truncated (decomp : List Nat → List Nat)
    (xxh : List Nat → Nat) (bc sc : Bool) (fuel : Nat)
    (ctx : Lz4MtContext) (hashed : List Nat) (results : List Lz4MtResult)
    (hres : ctx.result = Lz4MtResult.OK)
    (hlt : ctx.pos < ctx.stream.length)
    (hshort : ctx.stream.length < ctx.pos + 4) :
    decompBlockLoop decomp xxh bc sc (fuel + 1) ctx false hashed results
      = ({ stream := ctx.stream, pos := ctx.stream.length,
           output := ctx.output,
           result := Lz4MtResult.CANNOT_READ_BLOCK_SIZE },
         true, hashed, results) := by
  rw [decompBlockLoop]
  rw [if_neg (by
    simp only [Bool.false_eq_true, false_or, ctxReadEof, decide_eq_true_eq]
    omega)]
  rw [readU32_short ctx hres hlt hshort]
  dsimp only
  rw [if_pos (by rw [error]; exact of_decide_eq_true rfl)]
  rw [setResult_error (by rfl)]

/-- Claim C7, as stated, is false: a stream truncated immediately after a
valid frame header — so that no EOS word is ever read — decodes to `OK`,
not `CANNOT_READ_BLOCK_SIZE`, because the block loop tests `readEof`
before attempting to read the next size word (line 599). -/
theorem truncated_no_eos_counterexample :
    (lz4mtDecompress cDecompNil cXxh0
      ⟨headerBytes cXxh0 cSdPlain, 0, [], Lz4MtResult.OK⟩ cSdSC).1
      = Lz4MtResult.OK ∧
    (lz4mtDecompress cDecompNil cXxh0
      ⟨headerBytes cXxh0 cSdPlain, 0, [], Lz4MtResult.OK⟩ cSdSC).1
      ≠ Lz4MtResult.CANNOT_READ_BLOCK_SIZE := by decide

/-- Claim C7, amended: if the stream is truncated after a valid frame
header leaving a nonempty partial size word (1–3 further bytes), the
4-byte read of the next block-size word comes up short, and
`lz4mtDecompress` returns `CANNOT_READ_BLOCK_SIZE` (lines 599-609). -/
theorem lz4mtDecompress_truncated_blocksize (decomp : List Nat → List Nat)
    (xxh : List Nat → Nat) (sd sd0 : Lz4MtStreamDescriptor) (t : List Nat)
    (hsd : validateStreamDescriptor sd = Lz4MtResult.OK)
    (hrange : descriptorInRange sd)
    (ht0 : t ≠ []) (ht3 : t.length < 4) :
    (lz4mtDecompress decomp xxh
      ⟨headerBytes xxh sd ++ t, 0, [], Lz4MtResult.OK⟩ sd0).1
      = Lz4MtResult.CANNOT_READ_BLOCK_SIZE := by
  have hT : 0 < t.length := List.length_pos.mpr ht0
  have hH : 5 ≤ (headerBytes xxh sd).length := by
    simp only [headerBytes, List.length_append, storeU32_length,
      List.length_singleton]
    omega
  have hL : (headerBytes xxh sd ++ t).length
      = (headerBytes xxh sd).length + t.length := List.length_append _ _
  rw [lz4mtDecompress_eq_outer]
  obtain ⟨sdOut, hframe⟩ := decompressFrame_header_flat decomp xxh
    ((headerBytes xxh sd ++ t).length + 1) (headerBytes xxh sd ++ t) 0 []
    sd0 sd t hsd hrange (by rw [List.drop_zero])
  rw [decompBlockLoop_truncated decomp xxh _ _
    ((headerBytes xxh sd ++ t).length) _ [] []
    (by rfl)
    (by dsimp only; omega)
    (by dsimp only; omega)] at hframe
  dsimp only at hframe
  rw [foldResults_nil] at hframe
  rw [checkStreamChecksum_error _ _ _ _ (by rfl)] at hframe
  rw [decompressOuter_frame_continue2 decomp xxh
    ((headerBytes xxh sd ++ t).length) _ _ sd0 sdOut true
    (error_eq_false (by rfl))
    (by
      simp only [ctxReadEof, decide_eq_false_iff_not, not_le]
      omega)
    (by exact hframe)]
  rw [decompressOuter_stop decomp xxh _ sdOut true (Or.inl rfl)]

/-- Witness for `lz4mtDecompress_truncated_blocksize`. -/
theorem lz4mtDecompress_truncated_blocksize_witness :
    (lz4mtDecompress cDecompNil cXxh0
      ⟨headerBytes cXxh0 cSdPlain ++ [0, 0], 0, [], Lz4MtResult.OK⟩
      cSdSC).1 = Lz4MtResult.CANNOT_READ_BLOCK_SIZE :=
  lz4mtDecompress_truncated_blocksize cDecompNil cXxh0 cSdPlain cSdSC
    [0, 0] (by decide) (by decide) (by decide) (by decide)

theorem setResult_ne_ihc {ctx : Lz4MtContext} {r : Lz4MtResult}
    (h1 : ctx.result ≠ Lz4MtResult.INVALID_HEADER_CHECKSUM)
    (h2 : r ≠ Lz4MtResult.INVALID_HEADER_CHECKSUM) :
    (setResult ctx r).2.result ≠ Lz4MtResult.INVALID_HEADER_CHECKSUM := by
  rw [setResult]
  split_ifs
  · exact h2
  · exact h1

theorem readU32_ne_ihc {ctx : Lz4MtContext}
    (h : ctx.result ≠ Lz4MtResult.INVALID_HEADER_CHECKSUM) :
    (readU32 ctx).2.result ≠ Lz4MtResult.INVALID_HEADER_CHECKSUM := by
  simp only [readU32]
  split_ifs
  · exact h
  · intro hx; exact Lz4MtResult.noConfusion hx
  · exact h

theorem writeBin_result (ctx : Lz4MtContext) (l : List Nat) :
    (writeBin ctx l).2.result = ctx.result := by
  rw [writeBin]
  split_ifs <;> rfl

theorem writeBin_ne_ihc {ctx : Lz4MtContext} {l : List Nat}
    (h : ctx.result ≠ Lz4MtResult.INVALID_HEADER_CHECKSUM) :
    (writeBin ctx l).2.result ≠ Lz4MtResult.INVALID_HEADER_CHECKSUM := by
  rw [writeBin_result]; exact h

theorem decompWorkerF_ne_ihc (decomp : List Nat → List Nat)
    (xxh : List Nat → Nat) (bc sc : Bool) (ctx : Lz4MtContext)
    (quit : Bool) (hashed src : List Nat) (inc : Bool) (bcv : Nat)
    (h : ctx.result ≠ Lz4MtResult.INVALID_HEADER_CHECKSUM) :
    (decompWorkerF decomp xxh bc sc ctx quit hashed src inc bcv).1
        ≠ Lz4MtResult.INVALID_HEADER_CHECKSUM ∧
    (decompWorkerF decomp xxh bc sc ctx quit hashed src inc bcv).2.1.result
        ≠ Lz4MtResult.INVALID_HEADER_CHECKSUM := by
  simp only [decompWorkerF]
  split_ifs <;>
    refine ⟨(fun hx => Lz4MtResult.noConfusion hx), ?_⟩ <;>
    first
      | exact h
      | exact writeBin_ne_ihc h

theorem foldResults_ne_ihc :
    ∀ (rs : List Lz4MtResult) (ctx : Lz4MtContext),
      ctx.result ≠ Lz4MtResult.INVALID_HEADER_CHECKSUM →
      (∀ r ∈ rs, r ≠ Lz4MtResult.INVALID_HEADER_CHECKSUM) →
      (foldResults ctx rs).result ≠ Lz4MtResult.INVALID_HEADER_CHECKSUM := by
  intro rs
  induction rs with
  | nil => intro ctx h1 _; exact h1
  | cons r rs ih =>
    intro ctx h1 h2
    rw [foldResults]
    split_ifs
    · exact ih _ (setResult_ne_ihc h1 (h2 r (List.mem_cons_self r rs)))
        (fun x hx => h2 x (List.mem_cons_of_mem r hx))
    · exact ih _ h1 (fun x hx => h2 x (List.mem_cons_of_mem r hx))

theorem checkStreamChecksum_ne_ihc (xxh : List Nat → Nat)
    (ctx : Lz4MtContext) (sc : Bool) (hashed : List Nat)
    (h : ctx.result ≠ Lz4MtResult.INVALID_HEADER_CHECKSUM) :
    (checkStreamChecksum xxh ctx sc hashed).result
      ≠ Lz4MtResult.INVALID_HEADER_CHECKSUM := by
  simp only [checkStreamChecksum]
  split_ifs
  · exact setResult_ne_ihc (readU32_ne_ihc h) (by decide)
  · exact setResult_ne_ihc (readU32_ne_ihc h) (by decide)
  · exact readU32_ne_ihc h
  · exact h

theorem decompBlockLoop_ne_ihc (decomp : List Nat → List Nat)
    (xxh : List Nat → Nat) (bc sc : Bool) :
    ∀ (fuel : Nat) (ctx : Lz4MtContext) (quit : Bool) (hashed : List Nat)
      (results : List Lz4MtResult),
      ctx.result ≠ Lz4MtResult.INVALID_HEADER_CHECKSUM →
      (∀ r ∈ results, r ≠ Lz4MtResult.INVALID_HEADER_CHECKSUM) →
      ((decompBlockLoop decomp xxh bc sc fuel ctx quit hashed
          results).1.result ≠ Lz4MtResult.INVALID_HEADER_CHECKSUM ∧
       ∀ r ∈ (decompBlockLoop decomp xxh bc sc fuel ctx quit hashed
          results).2.2.2, r ≠ Lz4MtResult.INVALID_HEADER_CHECKSUM) := by
  intro fuel
  induction fuel with
  | zero => intro ctx quit hashed results h1 h2; exact ⟨h1, h2⟩
  | succ f ih =>
    intro ctx quit hashed results h1 h2
    simp only [decompBlockLoop]
    split_ifs
    · exact ⟨h1, h2⟩
    · exact ⟨setResult_ne_ihc (readU32_ne_ihc h1) (by decide), h2⟩
    · exact ⟨readU32_ne_ihc h1, h2⟩
    · exact ⟨setResult_ne_ihc (readU32_ne_ihc h1) (by decide), h2⟩
    · exact ⟨setResult_ne_ihc (readU32_ne_ihc (readU32_ne_ihc h1))
        (by decide), h2⟩
    · have hcr : (ctxRead (readU32 ctx).2
          (decodedSrcSize (readU32 ctx).1)).2.result
          ≠ Lz4MtResult.INVALID_HEADER_CHECKSUM := readU32_ne_ihc h1
      have hb := readU32_ne_ihc hcr
      refine ih _ _ _ _
        (decompWorkerF_ne_ihc decomp xxh bc sc _ quit hashed _ _ _ hb).2 ?_
      intro r hr
      rcases List.mem_append.mp hr with hx | hx
      · exact h2 r hx
      · rw [List.mem_singleton] at hx
        subst hx
        exact (decompWorkerF_ne_ihc decomp xxh bc sc _ quit hashed _ _ _
          hb).1
    · exact ⟨setResult_ne_ihc (readU32_ne_ihc h1) (by decide), h2⟩
    · have hb : ((0 : Nat), (ctxRead (readU32 ctx).2
          (decodedSrcSize (readU32 ctx).1)).2).2.result
          ≠ Lz4MtResult.INVALID_HEADER_CHECKSUM := readU32_ne_ihc h1
      refine ih _ _ _ _
        (decompWorkerF_ne_ihc decomp xxh bc sc _ quit hashed _ _ _ hb).2 ?_
      intro r hr
      rcases List.mem_append.mp hr with hx | hx
      · exact h2 r hx
      · rw [List.mem_singleton] at hx
        subst hx
        exact (decompWorkerF_ne_ihc decomp xxh bc sc _ quit hashed _ _ _
          hb).1

theorem decompressFrame_badHC (decomp : List Nat → List Nat)
    (xxh : List Nat → Nat) (fuel : Nat) (ctx : Lz4MtContext)
    (sd0 sd : Lz4MtStreamDescriptor) (hc : Nat) (body : List Nat)
    (hres : ctx.result = Lz4MtResult.OK)
    (hsd : validateStreamDescriptor sd = Lz4MtResult.OK)
    (hrange : descriptorInRange sd)
    (hstream : ctx.stream.drop ctx.pos = storeU32 LZ4S_MAGICNUMBER
      ++ headerSumBytes sd ++ [hc] ++ body)
    (hne : hc ≠ getCheckBits_FromXXH (xxh (headerSumBytes sd))) :
    (decompressFrame decomp xxh fuel ctx sd0 false).1.result
      = Lz4MtResult.INVALID_HEADER_CHECKSUM := by
  obtain ⟨hvn, hpd, hr1, hbi, hb4, hb7, hr3, hr2⟩ :=
    validateStreamDescriptor_ok_fields hsd
  obtain ⟨g1, g2, g3, g4, g5, g6, g7, g8, g9, g10, g11, g12⟩ := hrange
  have hflg := charToFlg_flgToChar_of_range g1 g2 g3 g4 g5 g6 g7
  have hbd := charToBc_bdToChar_of_range g8 g9 g10
  have hsum : headerSumBytes sd = [flgToChar sd.flg, bdToChar sd.bd]
      ++ (if sd.flg.streamSize ≠ 0 then storeU64 sd.streamSize else []) := by
    rw [headerSumBytes, hpd]
    simp
  have h1 : ctx.stream.drop ctx.pos = storeU32 LZ4S_MAGICNUMBER
      ++ (headerSumBytes sd ++ ([hc] ++ body)) := by
    rw [hstream]
    simp [List.append_assoc]
  have h2 : ctx.stream.drop (ctx.pos + 4)
      = [flgToChar sd.flg, bdToChar sd.bd]
        ++ ((if sd.flg.streamSize ≠ 0 then storeU64 sd.streamSize else [])
            ++ ([hc] ++ body)) := by
    have h := drop_add_of_drop_eq h1
    rw [storeU32_length] at h
    rw [h, hsum]
    simp [List.append_assoc]
  have h3 : ctx.stream.drop (ctx.pos + 4 + 2)
      = ((if sd.flg.streamSize ≠ 0 then storeU64 sd.streamSize else [])
          ++ [hc]) ++ body := by
    have h := drop_add_of_drop_eq h2
    simp only [List.length_cons, List.length_nil] at h
    rw [← List.append_assoc] at h
    exact h
  rw [decompressFrame]
  rw [readU32_eq hres h1 (by decide)]
  dsimp only
  rw [error_eq_false (by exact hres)]
  rw [if_neg (by simp)]
  rw [if_neg (by decide)]
  rw [if_neg (by simp)]
  rw [ctxRead_eq (by exact h2) (by rfl)]
  dsimp only
  rw [if_neg (by simp)]
  simp only [List.getD_cons_zero, List.getD_cons_succ]
  simp only [hflg, hbd]
  rw [if_neg (by
    rw [@validateStreamDescriptor_congr _ sd (by rfl) (by rfl), hsd]
    simp)]
  simp only [hpd, ne_eq, eq_self_iff_true, not_true_eq_false, if_false,
    add_zero]
  by_cases hss : sd.flg.streamSize = 0
  · have hopt : (if sd.flg.streamSize ≠ 0 then storeU64 sd.streamSize
        else []) = ([] : List Nat) := by simp [hss]
    rw [hopt] at h3 hsum
    simp only [List.nil_append] at h3
    rw [List.append_nil] at hsum
    simp only [hss, eq_self_iff_true, not_true_eq_false, if_false, ne_eq,
      zero_add]
    rw [ctxRead_eq (by exact h3)
      (show ([hc] : List Nat).length = 1 from rfl)]
    dsimp only
    rw [if_neg (by simp)]
    rw [if_pos (by
      rw [← hsum]
      rw [show List.take (1 - 1) [hc] = ([] : List Nat) from rfl,
        List.append_nil]
      intro hx
      exact hne hx)]
    rw [setResult_ok (by exact hres)]
  · have hopt : (if sd.flg.streamSize ≠ 0 then storeU64 sd.streamSize
        else []) = storeU64 sd.streamSize := by simp [hss]
    rw [hopt] at h3 hsum
    simp only [hss, not_false_iff, if_true, ne_eq]
    rw [ctxRead_eq (by exact h3)
      (show (storeU64 sd.streamSize ++ [hc]).length = 8 + 1
        from by simp [storeU64_length])]
    dsimp only
    rw [if_neg (by simp [storeU64_length])]
    have htake : (storeU64 sd.streamSize ++ [hc]).take (8 + 1 - 1)
        = storeU64 sd.streamSize :=
      List.take_left' (storeU64_length _)
    have hgetD : (storeU64 sd.streamSize ++ [hc]).getD (8 + 1 - 1) 0 = hc := by
      have h := getD_append_length (storeU64 sd.streamSize) hc 0
      rwa [storeU64_length] at h
    rw [if_pos (by
      rw [hgetD, htake]
      rw [← hsum]
      exact hne)]
    rw [setResult_ok (by exact hres)]

/-- Claim C4: for every valid descriptor, (a) the header-checksum byte
`lz4mtCompress` writes after the magic and descriptor bytes is
`getCheckBits_FromXXH` — bits 8..15 — of the xxHash32 (seed 0) of the
contiguous FLG, BD and optional-field bytes (`sumBegin .. p`, lines
341-353); and (b) the header reader recomputes the same hash over FLG
through the end of the optional fields, excluding the stored checksum
byte, and returns `INVALID_HEADER_CHECKSUM` iff the stored byte differs
from bits 8..15 of that hash (lines 528-539).  The "if" direction replays
the parse into the mismatch branch; the "only if" direction is the
invariant that no later step of the frame — block loop, worker, result
folding or stream-checksum epilogue — can ever produce
`INVALID_HEADER_CHECKSUM`. -/
theorem headerChecksum_closure
    (comp : List Nat → Option (List Nat)) (decomp : List Nat → List Nat)
    (xxh : List Nat → Nat) (S : List Nat) (fuel : Nat)
    (ctx : Lz4MtContext) (sd0 sd : Lz4MtStreamDescriptor) (hc : Nat)
    (body : List Nat)
    (hres : ctx.result = Lz4MtResult.OK)
    (hsd : validateStreamDescriptor sd = Lz4MtResult.OK)
    (hrange : descriptorInRange sd)
    (hstream : ctx.stream.drop ctx.pos = storeU32 LZ4S_MAGICNUMBER
      ++ headerSumBytes sd ++ [hc] ++ body) :
    (lz4mtCompress comp xxh ⟨S, 0, [], Lz4MtResult.OK⟩ sd).2.output.take
        (4 + (headerSumBytes sd).length + 1)
      = storeU32 LZ4S_MAGICNUMBER ++ headerSumBytes sd
        ++ [getCheckBits_FromXXH (xxh (headerSumBytes sd))] ∧
    ((decompressFrame decomp xxh fuel ctx sd0 false).1.result
        = Lz4MtResult.INVALID_HEADER_CHECKSUM
      ↔ hc ≠ getCheckBits_FromXXH (xxh (headerSumBytes sd))) := by
  constructor
  · rw [lz4mtCompress_eq comp xxh sd S hsd]
    dsimp only
    rw [compressedFrame]
    rw [List.append_assoc, List.append_assoc]
    have hlen : 4 + (headerSumBytes sd).length + 1
        = (headerBytes xxh sd).length := by
      simp only [headerBytes, List.length_append, storeU32_length,
        List.length_singleton]
    rw [hlen]
    rw [List.take_left' rfl]
    rw [headerBytes]
  · rcases eq_or_ne hc (getCheckBits_FromXXH (xxh (headerSumBytes sd)))
      with hhc | hhc
    · have hstream' : ctx.stream.drop ctx.pos
          = headerBytes xxh sd ++ body := by
        rw [hstream, hhc, headerBytes]
      obtain ⟨sdOut, hframe⟩ := decompressFrame_header decomp xxh fuel ctx
        sd0 sd body hres hsd hrange hstream'
      have h0 : ({ ctx with pos := ctx.pos + (headerBytes xxh sd).length
          } : Lz4MtContext).result
          ≠ Lz4MtResult.INVALID_HEADER_CHECKSUM := by
        exact hres ▸ (fun hx => Lz4MtResult.noConfusion hx)
      obtain ⟨hn1, hn2⟩ := decompBlockLoop_ne_ihc decomp xxh
        (decide (sd.flg.blockChecksum ≠ 0))
        (decide (sd.flg.streamChecksum ≠ 0)) fuel
        { ctx with pos := ctx.pos + (headerBytes xxh sd).length } false [] []
        h0 (fun r hr => absurd hr (List.not_mem_nil r))
      rw [hframe]
      refine iff_of_false ?_ (not_not_intro hhc)
      exact checkStreamChecksum_ne_ihc xxh _ _ _
        (foldResults_ne_ihc _ _ hn1 hn2)
    · exact iff_of_true (decompressFrame_badHC decomp xxh fuel ctx sd0 sd
        hc body hres hsd hrange hstream hhc) hhc

/-- Witness for `headerChecksum_closure`. -/
theorem headerChecksum_closure_witness :
    ((lz4mtCompress cCompNone cXxh0 ⟨[9], 0, [], Lz4MtResult.OK⟩
        cSdPlain).2.output.take (4 + (headerSumBytes cSdPlain).length + 1)
      = storeU32 LZ4S_MAGICNUMBER ++ headerSumBytes cSdPlain
        ++ [getCheckBits_FromXXH (cXxh0 (headerSumBytes cSdPlain))]) ∧
    ((decompressFrame cDecompNil cXxh0 3
        ⟨storeU32 LZ4S_MAGICNUMBER ++ headerSumBytes cSdPlain ++ [1] ++ [],
         0, [], Lz4MtResult.OK⟩ cSdSC false).1.result
        = Lz4MtResult.INVALID_HEADER_CHECKSUM
      ↔ (1 : Nat) ≠ getCheckBits_FromXXH (cXxh0 (headerSumBytes cSdPlain))) :=
  headerChecksum_closure cCompNone cDecompNil cXxh0 [9] 3
    ⟨storeU32 LZ4S_MAGICNUMBER ++ headerSumBytes cSdPlain ++ [1] ++ [], 0,
     [], Lz4MtResult.OK⟩ cSdSC cSdPlain 1 []
    (by rfl) (by decide) (by decide) (by rfl)
